import Mathlib

/-!
Verification of the cf-speedtest measurement engine.

Shallow embedding of `cf_speedtest/utils.py` (the percentile aggregator),
`cf_speedtest/speedtest.py` (the adaptive retry/size controller
`measure_download_bandwidth` / `measure_upload_bandwidth`, the phase
sequencer and result assembler `run_standard_test`).

Wall-clock times and transferred byte counts delivered by the HTTP
transport are abstracted as a response oracle (`Resp`); all arithmetic is
over `ℚ` (Python floats are treated as exact rationals).  Sleeps are
recorded as trace events rather than performed.
-/

namespace CFSpeedtest

/-! ## Python primitives used by `percentile` (utils.py) -/

/-- Python `int(q)`: truncation toward zero. -/
def pyTrunc (q : ℚ) : ℤ := if q < 0 then ⌈q⌉ else ⌊q⌋

/-- Python `round(q)` for a float: round half to even. -/
def pyRound (q : ℚ) : ℤ :=
  if Int.fract q < 1/2 then ⌊q⌋
  else if 1/2 < Int.fract q then ⌊q⌋ + 1
  else if ⌊q⌋ % 2 = 0 then ⌊q⌋ else ⌊q⌋ + 1

/-- Python list indexing `l[i]`: negative indices count from the end;
an out-of-range index raises `IndexError`, modelled as `none`. -/
def pyGet? (l : List ℚ) (i : ℤ) : Option ℚ :=
  if i < 0 then
    if 0 ≤ (l.length : ℤ) + i then l.get? ((l.length : ℤ) + i).toNat else none
  else l.get? i.toNat

/-- Python `min(v)` over a nonempty list (0 on `[]`, unused there). -/
def listMin : List ℚ → ℚ
  | [] => 0
  | x :: xs => xs.foldl min x

/-- Python `max(v)` over a nonempty list (0 on `[]`, unused there). -/
def listMax : List ℚ → ℚ
  | [] => 0
  | x :: xs => xs.foldl max x

/-! ## `percentile` from `cf_speedtest/utils.py`

```
def percentile(values, perc=0.5):
    if not values:
        return 0
    if perc > 1:
        perc = perc / 100.0
    sorted_vals = sorted(values)
    idx = (len(sorted_vals) - 1) * perc
    rem = idx % 1
    if rem == 0:
        return sorted_vals[int(round(idx))]
    floor_idx = int(idx)
    ceil_idx = int(idx) + 1
    edges = [sorted_vals[floor_idx], sorted_vals[ceil_idx]]
    return edges[0] + (edges[1] - edges[0]) * rem
```

`none` models an uncaught `IndexError`.  Python `idx % 1` is `Int.fract`
(the remainder is non-negative), `int(round(idx))` collapses to
`pyRound idx` because `int` is the identity on the integer produced by
`round`. -/
/-- The body of `percentile` from `idx = ... ; rem = idx % 1` on, over the
already-sorted list: exact element on a whole rank, linear interpolation
otherwise. -/
def interpAt (sortedVals : List ℚ) (idx : ℚ) : Option ℚ :=
  if Int.fract idx = 0 then pyGet? sortedVals (pyRound idx)
  else
    match pyGet? sortedVals (pyTrunc idx), pyGet? sortedVals (pyTrunc idx + 1) with
    | some lo, some hi => some (lo + (hi - lo) * Int.fract idx)
    | _, _ => none

def percentile (values : List ℚ) (perc : ℚ) : Option ℚ :=
  if values = [] then some 0
  else
    interpAt (values.insertionSort (· ≤ ·))
      ((((values.insertionSort (· ≤ ·)).length : ℚ) - 1) *
        (if 1 < perc then perc / 100 else perc))

/-! ## Transport abstraction

One HTTP request is answered by the transport oracle with either a
successful response (carrying the server-timing header value parsed by
`get_server_time`, the time to first byte `response.elapsed`, the
wall-clock time until the body was fully received, and the number of
body bytes actually transferred), an HTTP error status (with the
optional parsed `Retry-After` header), or a transport-level exception
(connect/timeout/reset — the `except Exception` branch). -/
inductive Resp where
  | ok (serverTiming : Option ℚ) (ttfbMs totalMs : ℚ) (transferSize : ℕ)
  | httpErr (status : ℕ) (retryAfter : Option ℚ)
  | exn
  deriving DecidableEq, Repr

/-- Constants from `cf_speedtest/speedtest.py`. -/
def MAX_RETRIES : ℕ := 3

def DEFAULT_RETRY_DELAY : ℚ := 2

def MIN_BYTES_PER_REQ : ℕ := 100000

def ESTIMATED_HEADER_FRACTION : ℚ := 1/200

def ESTIMATED_SERVER_TIME : ℚ := 10

def BANDWIDTH_MIN_REQUEST_DURATION : ℚ := 10

def BANDWIDTH_FINISH_REQUEST_DURATION : ℚ := 1000

/-- `get_server_time(response) or ESTIMATED_SERVER_TIME`: Python `or`
replaces both `None` and a falsy `0.0` by the 10 ms default. -/
def serverTimeOr (o : Option ℚ) : ℚ :=
  match o with
  | some t => if t = 0 then ESTIMATED_SERVER_TIME else t
  | none => ESTIMATED_SERVER_TIME

/-- One measurement result dict:
`{'bytes': ..., 'bps': ..., 'duration': ..., 'ping': ...}`. -/
structure Sample where
  bytes : ℕ
  bps : ℚ
  duration : ℚ
  ping : ℚ
  deriving DecidableEq, Repr

/-- `bits = 8 * (transfer_size if transfer_size > 0 else
int(current_size * (1 + ESTIMATED_HEADER_FRACTION)))` (speedtest.py:253). -/
def codeDownloadBits (transfer size : ℕ) : ℚ :=
  8 * (if 0 < transfer then (transfer : ℚ)
       else ((pyTrunc ((size : ℚ) * (1 + ESTIMATED_HEADER_FRACTION)) : ℤ) : ℚ))

/-- Modelled from the spec (§4.3), for comparison with `codeDownloadBits`:
`bits = 8 × max(bytesActuallyTransferred, requestedBytes × 1.005)`. -/
def specDownloadBits (transfer size : ℕ) : ℚ :=
  8 * max (transfer : ℚ) ((size : ℚ) * (1 + ESTIMATED_HEADER_FRACTION))

/-- The success branch of `measure_download_bandwidth`
(speedtest.py:224-261). `total_time_ms` is wall-clock time from request
start to content fully received; `elapsed_ms` is the TTFB. -/
def mkDownloadSample (st : Option ℚ) (ttfb total : ℚ) (transfer size : ℕ) : Sample :=
  let payload := max 1 (total - ttfb)
  let serverTime := serverTimeOr st
  let payload2 := max 1 payload
  let ping := max (1/100) (ttfb - serverTime)
  let duration := ping + payload2
  let bits := codeDownloadBits transfer size
  let bps := if 0 < duration then bits / (duration / 1000) else 0
  ⟨size, bps, duration, ping⟩

/-- The success branch of `measure_upload_bandwidth`
(speedtest.py:378-407): `upload_duration_ms = max(1, elapsed_ms)`,
`bits = 8 * current_size * (1 + ESTIMATED_HEADER_FRACTION)`.
The `total`/`transfer` oracle fields are not used by the upload path. -/
def mkUploadSample (st : Option ℚ) (ttfb _total : ℚ) (_transfer size : ℕ) : Sample :=
  let serverTime := serverTimeOr st
  let duration := max 1 ttfb
  let bits := 8 * (size : ℚ) * (1 + ESTIMATED_HEADER_FRACTION)
  let bps := if 0 < duration then bits / (duration / 1000) else 0
  let ping := max (1/100) (ttfb - serverTime)
  ⟨size, bps, duration, ping⟩

/-- Observable steps of one probe attempt.  Each event is annotated with
the controller state (current size / `retry_count` value) at that step:
`request size rc` is one HTTP request issued with `bytes=size` while
`retry_count = rc`; `shrinkSleep s rc` is the fixed 100 ms sleep of the
adaptive-shrink branch, after which `current_size = s` and
`retry_count = rc`; `backoffSleep secs rc` is the exponential-backoff
sleep of `retry_after * 2 ** rc` seconds; `errSleep rc` is the fixed
100 ms sleep of the `except RateLimitError` retry branch, after which
`retry_count = rc`. -/
inductive Event where
  | request (size rc : ℕ)
  | shrinkSleep (newSize newRc : ℕ)
  | backoffSleep (secs : ℚ) (rc : ℕ)
  | errSleep (newRc : ℕ)
  deriving DecidableEq, Repr

inductive AttemptOutcome where
  | success (s : Sample)
  | failed
  deriving DecidableEq, Repr

/-- The retry loop `while retry_count <= MAX_RETRIES and not
measurement_success` of `measure_download_bandwidth` /
`measure_upload_bandwidth` (speedtest.py:177-282 and 329-428), for one
of the `count` iterations.  `mk` builds the success sample (download or
upload formula).  `fuel` renders the loop guard: it is maintained as
`MAX_RETRIES + 1 - retry_count`, so `fuel = 0` exactly when
`retry_count > MAX_RETRIES` and the loop exits with no sample.  Every
`continue` increments `retry_count` and decrements `fuel`.

The `raise RateLimitError` statements inside the loop are all caught by
the loop's own `except` handlers: a 429 at the retry ceiling reaches the
handler with `retry_count >= MAX_RETRIES`, hence `break`; a 403 or other
non-2xx status reaches the handler, which retries at the same size after
a 100 ms sleep unless `retry_count >= MAX_RETRIES` or
`current_size <= MIN_BYTES_PER_REQ`; a transport exception always breaks. -/
def attemptGo (mk : Option ℚ → ℚ → ℚ → ℕ → ℕ → Sample) (t : ℕ → Resp) :
    ℕ → ℕ → ℕ → ℕ → List Event × AttemptOutcome
  | _, _, _, 0 => ([], .failed)
  | reqIdx, size, rc, fuel + 1 =>
    match t reqIdx with
    | .exn => ([.request size rc], .failed)
    | .ok st ttfb total transfer =>
        ([.request size rc], .success (mk st ttfb total transfer size))
    | .httpErr status retryAfterHdr =>
        if status = 429 then
          let retryAfter := retryAfterHdr.getD DEFAULT_RETRY_DELAY
          let nextSize := max MIN_BYTES_PER_REQ (size / 2)
          if MIN_BYTES_PER_REQ < size ∧ nextSize < size then
            let rest := attemptGo mk t (reqIdx + 1) nextSize (rc + 1) fuel
            (.request size rc :: .shrinkSleep nextSize (rc + 1) :: rest.1, rest.2)
          else if rc < MAX_RETRIES then
            let rest := attemptGo mk t (reqIdx + 1) size (rc + 1) fuel
            (.request size rc :: .backoffSleep (retryAfter * 2 ^ rc) rc :: rest.1, rest.2)
          else ([.request size rc], .failed)
        else
          if MAX_RETRIES ≤ rc ∨ size ≤ MIN_BYTES_PER_REQ then
            ([.request size rc], .failed)
          else
            let rest := attemptGo mk t (reqIdx + 1) size (rc + 1) fuel
            (.request size rc :: .errSleep (rc + 1) :: rest.1, rest.2)

/-- One full probe attempt: the loop entered with
`current_size = bytes_size`, `retry_count = 0`. -/
def runAttempt (mk : Option ℚ → ℚ → ℚ → ℕ → ℕ → Sample) (t : ℕ → Resp)
    (size : ℕ) : List Event × AttemptOutcome :=
  attemptGo mk t 0 size 0 (MAX_RETRIES + 1)

/-- Requested sizes, in request order, of an attempt trace. -/
def requestSizes (tr : List Event) : List ℕ :=
  tr.filterMap fun e => match e with | .request s _ => some s | _ => none

/-- The `retry_count` annotation of a trace event. -/
def eventRc : Event → ℕ
  | .request _ rc => rc
  | .shrinkSleep _ rc => rc
  | .backoffSleep _ rc => rc
  | .errSleep rc => rc

def isBackoffSleep : Event → Bool
  | .backoffSleep _ _ => true
  | _ => false

/-- `min_duration` as returned by the measure functions: tracked as
`min(min_duration, duration)` over the successes, `0` when there were
none (`float('inf')` converted on return). -/
def minDurationOf (l : List Sample) : ℚ :=
  match l with
  | [] => 0
  | s :: rest => (rest.map (·.duration)).foldl min s.duration

/-- `measure_download_bandwidth` / `measure_upload_bandwidth`: `count`
attempts (the transport oracle `t` is indexed by attempt, then by
request within the attempt), returning the success samples in order and
the minimum duration.  The inter-request `time.sleep(REQUEST_DELAY)` has
no observable effect on the result and is not modelled. -/
def measureBandwidth (mk : Option ℚ → ℚ → ℚ → ℕ → ℕ → Sample)
    (t : ℕ → ℕ → Resp) (bytesSize count : ℕ) : List Sample × ℚ :=
  let outs := (List.range count).map fun i => runAttempt mk (t i) bytesSize
  let results := outs.filterMap fun o =>
    match o.2 with | .success s => some s | .failed => none
  (results, minDurationOf results)

/-! ## Latency probe (`measure_latency`, speedtest.py:105-139)

Non-`ok` responses and exceptions are skipped (`if response.ok` /
`except Exception: continue`); the probe has no retry and no adaptive
size.  Here `ttfb_ms = (end_time - start_time) * 1000` is the wall-clock
time of the whole zero-byte GET, i.e. the oracle's `totalMs`. -/
def measureLatency (t : ℕ → Resp) (n : ℕ) : List ℚ :=
  (List.range n).filterMap fun i =>
    match t i with
    | .ok st _ total _ => some (max (1/100) (total - serverTimeOr st))
    | _ => none

/-! ## Phase sequencer (`run_standard_test`, speedtest.py:440-628) -/

inductive MType where
  | latency
  | download
  | upload
  deriving DecidableEq, Repr

/-- One row of the `measurements` table:
`(type, bytes, count, bypass_min_duration)`. -/
structure Phase where
  kind : MType
  bytes : ℕ
  count : ℕ
  bypass : Bool
  deriving DecidableEq, Repr

/-- The measurement sequence (speedtest.py:466-482). -/
def measurements : List Phase :=
  [⟨.latency, 0, 1, false⟩,
   ⟨.download, 100000, 1, true⟩,
   ⟨.latency, 0, 20, false⟩,
   ⟨.download, 100000, 9, false⟩,
   ⟨.download, 1000000, 8, false⟩,
   ⟨.upload, 100000, 8, false⟩,
   ⟨.upload, 1000000, 6, false⟩,
   ⟨.download, 10000000, 6, false⟩,
   ⟨.upload, 10000000, 4, false⟩,
   ⟨.download, 25000000, 4, false⟩,
   ⟨.upload, 25000000, 4, false⟩,
   ⟨.download, 100000000, 3, false⟩,
   ⟨.upload, 50000000, 3, false⟩,
   ⟨.download, 250000000, 2, false⟩]

def measurementsIdx : List (ℕ × Phase) := measurements.enum

/-- Mutable state of one run.  `executed` is pure instrumentation (not in
the source): the indices of the phases that were not skipped, recording
which table rows actually ran.  `failedDownloadSizes` /
`failedUploadSizes` mirror `failed_download_sizes` /
`failed_upload_sizes`; their only writers in the source sit inside the
`except RateLimitError` handlers of the phase loop, which are
unreachable because `measure_download_bandwidth` and
`measure_upload_bandwidth` catch `RateLimitError` internally and always
return normally — so the lists stay empty. -/
structure RunState where
  allLatency : List ℚ
  downloadResults : List Sample
  uploadResults : List Sample
  downloadFinished : Bool
  uploadFinished : Bool
  failedDownloadSizes : List ℕ
  failedUploadSizes : List ℕ
  executed : List ℕ
  deriving DecidableEq, Repr

def initState : RunState := ⟨[], [], [], false, false, [], [], []⟩

/-- One iteration of the phase loop (speedtest.py:497-567).  Transport
oracles: `dlT`/`ulT` give phase index → attempt → request → response,
`latT` gives phase index → packet → response.  A download/upload phase
is skipped when its direction's finished flag is set; otherwise the
measure function runs, results with `duration >= 10` are accumulated,
and the finished flag is set when `not bypass and min_duration > 0 and
min_duration > 1000`. -/
def phaseStep (dlT ulT : ℕ → ℕ → ℕ → Resp) (latT : ℕ → ℕ → Resp)
    (s : RunState) (ip : ℕ × Phase) : RunState :=
  match ip.2.kind with
  | .latency =>
      { s with allLatency := s.allLatency ++ measureLatency (latT ip.1) ip.2.count,
               executed := s.executed ++ [ip.1] }
  | .download =>
      if s.downloadFinished then s
      else
        let out := measureBandwidth mkDownloadSample (dlT ip.1) ip.2.bytes ip.2.count
        let valid := out.1.filter fun m =>
          decide (BANDWIDTH_MIN_REQUEST_DURATION ≤ m.duration)
        { s with downloadResults := s.downloadResults ++ valid,
                 downloadFinished :=
                   !ip.2.bypass && decide (0 < out.2) &&
                     decide (BANDWIDTH_FINISH_REQUEST_DURATION < out.2),
                 executed := s.executed ++ [ip.1] }
  | .upload =>
      if s.uploadFinished then s
      else
        let out := measureBandwidth mkUploadSample (ulT ip.1) ip.2.bytes ip.2.count
        let valid := out.1.filter fun m =>
          decide (BANDWIDTH_MIN_REQUEST_DURATION ≤ m.duration)
        { s with uploadResults := s.uploadResults ++ valid,
                 uploadFinished :=
                   !ip.2.bypass && decide (0 < out.2) &&
                     decide (BANDWIDTH_FINISH_REQUEST_DURATION < out.2),
                 executed := s.executed ++ [ip.1] }

/-- Sequencer state after the first `n` phases. -/
def statesUpTo (dlT ulT : ℕ → ℕ → ℕ → Resp) (latT : ℕ → ℕ → Resp) (n : ℕ) : RunState :=
  (measurementsIdx.take n).foldl (phaseStep dlT ulT latT) initState

/-- Sequencer state after the whole table. -/
def finalState (dlT ulT : ℕ → ℕ → ℕ → Resp) (latT : ℕ → ℕ → Resp) : RunState :=
  measurementsIdx.foldl (phaseStep dlT ulT latT) initState

/-! ## Result assembler (speedtest.py:569-628) -/

/-- The `ValueError`s raised by `run_standard_test`, plus the
`IndexError` that `percentile` lets escape on an out-of-range rank
(reachable only for pathological `percentile_val`). -/
inductive RunError where
  | latencyFailed
  | percentileIndexError
  | downloadFailed (failedSizes : List ℕ)
  | uploadFailed (failedSizes : List ℕ)
  deriving DecidableEq, Repr

/-- The returned dict.  `download_speed` / `upload_speed` are documented
and computed as BYTES per second: bits-per-second percentile divided by 8. -/
structure RunReport where
  downloadSpeed : ℚ
  uploadSpeed : ℚ
  latencyMeasurements : List ℚ
  deriving DecidableEq, Repr

/-- `latency_measurements = all[-20:] if len(all) >= 20 else all`. -/
def selectedLatency (all : List ℚ) : List ℚ :=
  if 20 ≤ all.length then all.drop (all.length - 20) else all

/-- `[m['bps'] for m in results if m['bps'] and m['duration'] >= 10]`:
Python truthiness drops a zero `bps`. -/
def qualifyingBps (results : List Sample) : List ℚ :=
  (results.filter fun m =>
    decide (m.bps ≠ 0) && decide (BANDWIDTH_MIN_REQUEST_DURATION ≤ m.duration)).map (·.bps)

/-- `download_bps = None; if download_results: valid_bps = ...;
if valid_bps: download_bps = percentile(valid_bps, bandwidth_percentile)`.
A `none` from `percentile` is an uncaught `IndexError`. -/
def computeDirBps (results : List Sample) (bp : ℚ) : Except RunError (Option ℚ) :=
  if results = [] then .ok none
  else
    let validBps := qualifyingBps results
    if validBps = [] then .ok none
    else
      match percentile validBps bp with
      | some b => .ok (some b)
      | none => .error .percentileIndexError

/-- `download_speed = (download_bps / 8) if download_bps else None`:
Python truthiness turns both `None` and `0` into `None`. -/
def speedOf (o : Option ℚ) : Option ℚ :=
  match o with
  | some b => if b ≠ 0 then some (b / 8) else none
  | none => none

/-- The tail of `run_standard_test` after the phase loop
(speedtest.py:569-628): latency selection and check, percentile
computation for both directions, conversion to bytes per second, and
the direction-failure errors carrying the failed-size context. -/
def assemble (s : RunState) (percentileVal : ℚ) : Except RunError RunReport :=
  let latency := selectedLatency s.allLatency
  if latency = [] then .error .latencyFailed
  else
    let bp := if 1 < percentileVal then percentileVal / 100 else percentileVal
    match computeDirBps s.downloadResults bp with
    | .error e => .error e
    | .ok dlBps =>
      match computeDirBps s.uploadResults bp with
      | .error e => .error e
      | .ok ulBps =>
        match speedOf dlBps with
        | none => .error (.downloadFailed s.failedDownloadSizes)
        | some ds =>
          match speedOf ulBps with
          | none => .error (.uploadFailed s.failedUploadSizes)
          | some us => .ok ⟨ds, us, latency⟩

/-- `run_standard_test` over abstract transports. -/
def runStandardTest (dlT ulT : ℕ → ℕ → ℕ → Resp) (latT : ℕ → ℕ → Resp)
    (percentileVal : ℚ) : Except RunError RunReport :=
  assemble (finalState dlT ulT latT) percentileVal

/-! ## Concrete transport oracles used by the concrete theorems -/

/-- Every request succeeds: no server-timing header (10 ms default),
TTFB 30 ms, body complete at 530 ms, 1 byte actually transferred.
Download sample: ping 20, payload 500, duration 520, bps 200/13.
Upload sample: duration 30, ping 20, bps 268 × size. -/
def okResp : Resp := .ok none 30 530 1

def okDlT : ℕ → ℕ → ℕ → Resp := fun _ _ _ => okResp

def okUlT : ℕ → ℕ → ℕ → Resp := fun _ _ _ => okResp

def okLatT : ℕ → ℕ → Resp := fun _ _ => okResp

/-- Downloads whose payload takes 1500 ms: duration 20 + 1500 = 1520,
above the 1000 ms finish threshold. -/
def hiDlT : ℕ → ℕ → ℕ → Resp := fun _ _ _ => .ok none 30 1530 1

/-- Every request is rate limited, no `Retry-After` header. -/
def all429T : ℕ → Resp := fun _ => .httpErr 429 none

/-- Every request is rate limited, `Retry-After: 5`. -/
def all429hT : ℕ → Resp := fun _ => .httpErr 429 (some 5)

/-- Every request is blocked with 403. -/
def all403T : ℕ → Resp := fun _ => .httpErr 403 none

/-- Every download request of every phase is blocked with 403. -/
def dl403T : ℕ → ℕ → ℕ → Resp := fun _ _ _ => .httpErr 403 none

/-- Every latency probe fails with a transport exception, so
`measure_latency` collects nothing. -/
def failLatT : ℕ → ℕ → Resp := fun _ _ => .exn

/-- Only the initial calibration download phase (table row 1) is blocked
with 403; every other request succeeds. -/
def cal403DlT : ℕ → ℕ → ℕ → Resp := fun pIdx _ _ =>
  if pIdx = 1 then .httpErr 403 none else okResp

/-! ## Lemmas about `listMin` / `listMax` -/

lemma foldl_min_le_init (xs : List ℚ) (a : ℚ) : xs.foldl min a ≤ a := by
  induction xs generalizing a with
  | nil => exact le_refl a
  | cons y ys ih => exact le_trans (ih (min a y)) (min_le_left a y)

lemma foldl_min_le_mem (xs : List ℚ) (a x : ℚ) (h : x ∈ xs) : xs.foldl min a ≤ x := by
  induction xs generalizing a with
  | nil => cases h
  | cons y ys ih =>
      rcases List.mem_cons.mp h with rfl | hx
      · exact le_trans (foldl_min_le_init ys (min a x)) (min_le_right a x)
      · exact ih (min a y) hx

lemma foldl_min_mem (xs : List ℚ) (a : ℚ) : xs.foldl min a = a ∨ xs.foldl min a ∈ xs := by
  induction xs generalizing a with
  | nil => exact Or.inl rfl
  | cons y ys ih =>
      rcases ih (min a y) with h | h
      · rcases min_choice a y with hm | hm
        · exact Or.inl (by rw [List.foldl_cons, h, hm])
        · exact Or.inr (by rw [List.foldl_cons, h, hm]; exact List.mem_cons_self y ys)
      · exact Or.inr (List.mem_cons_of_mem y h)

lemma listMin_le {v : List ℚ} {x : ℚ} (h : x ∈ v) : listMin v ≤ x := by
  cases v with
  | nil => cases h
  | cons y ys =>
      rcases List.mem_cons.mp h with rfl | hx
      · exact foldl_min_le_init ys x
      · exact foldl_min_le_mem ys y x hx

lemma listMin_mem {v : List ℚ} (h : v ≠ []) : listMin v ∈ v := by
  cases v with
  | nil => exact absurd rfl h
  | cons y ys =>
      show ys.foldl min y ∈ y :: ys
      rcases foldl_min_mem ys y with hm | hm
      · rw [hm]; exact List.mem_cons_self y ys
      · exact List.mem_cons_of_mem y hm

lemma init_le_foldl_max (xs : List ℚ) (a : ℚ) : a ≤ xs.foldl max a := by
  induction xs generalizing a with
  | nil => exact le_refl a
  | cons y ys ih => exact le_trans (le_max_left a y) (ih (max a y))

lemma mem_le_foldl_max (xs : List ℚ) (a x : ℚ) (h : x ∈ xs) : x ≤ xs.foldl max a := by
  induction xs generalizing a with
  | nil => cases h
  | cons y ys ih =>
      rcases List.mem_cons.mp h with rfl | hx
      · exact le_trans (le_max_right a x) (init_le_foldl_max ys (max a x))
      · exact ih (max a y) hx

lemma foldl_max_mem (xs : List ℚ) (a : ℚ) : xs.foldl max a = a ∨ xs.foldl max a ∈ xs := by
  induction xs generalizing a with
  | nil => exact Or.inl rfl
  | cons y ys ih =>
      rcases ih (max a y) with h | h
      · rcases max_choice a y with hm | hm
        · exact Or.inl (by rw [List.foldl_cons, h, hm])
        · exact Or.inr (by rw [List.foldl_cons, h, hm]; exact List.mem_cons_self y ys)
      · exact Or.inr (List.mem_cons_of_mem y h)

lemma le_listMax {v : List ℚ} {x : ℚ} (h : x ∈ v) : x ≤ listMax v := by
  cases v with
  | nil => cases h
  | cons y ys =>
      rcases List.mem_cons.mp h with rfl | hx
      · exact init_le_foldl_max ys x
      · exact mem_le_foldl_max ys y x hx

lemma listMax_mem {v : List ℚ} (h : v ≠ []) : listMax v ∈ v := by
  cases v with
  | nil => exact absurd rfl h
  | cons y ys =>
      show ys.foldl max y ∈ y :: ys
      rcases foldl_max_mem ys y with hm | hm
      · rw [hm]; exact List.mem_cons_self y ys
      · exact List.mem_cons_of_mem y hm

/-! ## Lemmas about sorted lists -/

lemma sorted_get_zero_le {sv : List ℚ} (hs : sv.Sorted (· ≤ ·)) (h : 0 < sv.length) :
    ∀ x ∈ sv, sv.get ⟨0, h⟩ ≤ x := by
  cases sv with
  | nil => simp at h
  | cons a t =>
      intro x hx
      rcases List.mem_cons.mp hx with rfl | hx
      · exact le_refl x
      · exact List.rel_of_sorted_cons hs x hx

lemma sorted_le_getLast : ∀ {sv : List ℚ}, sv.Sorted (· ≤ ·) → ∀ (h : sv ≠ []),
    ∀ x ∈ sv, x ≤ sv.getLast h := by
  intro sv
  induction sv with
  | nil => intro _ h; exact absurd rfl h
  | cons a t ih =>
      intro hs h x hx
      cases t with
      | nil =>
          rcases List.mem_cons.mp hx with rfl | hx2
          · exact le_refl x
          · cases hx2
      | cons b t2 =>
          have htne : (b :: t2) ≠ [] := List.cons_ne_nil b t2
          rw [List.getLast_cons htne]
          rcases List.mem_cons.mp hx with rfl | hx2
          · exact List.rel_of_sorted_cons hs _ (List.getLast_mem htne)
          · exact ih hs.of_cons htne x hx2

/-! ## `interpAt` is defined and bounded for a rank in `[0, n-1]` -/

lemma pyGet?_nonneg (l : List ℚ) (i : ℤ) (h0 : 0 ≤ i) (hk : i.toNat < l.length) :
    pyGet? l i = some (l.get ⟨i.toNat, hk⟩) := by
  unfold pyGet?
  rw [if_neg (by omega)]
  exact List.get?_eq_get hk

lemma pyRound_intCast (z : ℤ) : pyRound ((z : ℚ)) = z := by
  unfold pyRound
  rw [Int.fract_intCast]
  norm_num

lemma interpAt_natIdx (sv : List ℚ) (k : ℕ) (hk : k < sv.length) :
    interpAt sv ((k : ℚ)) = some (sv.get ⟨k, hk⟩) := by
  unfold interpAt
  rw [if_pos (Int.fract_natCast k)]
  have h1 : pyRound ((k : ℚ)) = (k : ℤ) := by
    rw [show ((k : ℚ)) = (((k : ℤ) : ℤ) : ℚ) by push_cast; ring]
    exact pyRound_intCast _
  rw [h1]
  simpa using pyGet?_nonneg sv (k : ℤ) (by omega) (by simpa using hk)

lemma interpAt_some_bounded (sv : List ℚ) (hs : sv.Sorted (· ≤ ·)) (hne : sv ≠ [])
    (idx : ℚ) (h0 : 0 ≤ idx) (h1 : idx ≤ (sv.length : ℚ) - 1) :
    ∃ x, interpAt sv idx = some x ∧
      ∃ lo ∈ sv, ∃ hi ∈ sv, lo ≤ x ∧ x ≤ hi := by
  have hn : 1 ≤ sv.length := List.length_pos.mpr hne
  have hcast : ((sv.length : ℚ) - 1) = (((sv.length : ℤ) - 1 : ℤ) : ℚ) := by push_cast; ring
  by_cases hr : Int.fract idx = 0
  · -- whole rank: exact element
    have hround : pyRound idx = ⌊idx⌋ := by
      unfold pyRound; rw [hr]; norm_num
    have hf0 : 0 ≤ ⌊idx⌋ := Int.floor_nonneg.mpr h0
    have hfle : ⌊idx⌋ ≤ (sv.length : ℤ) - 1 := by
      have := Int.floor_le_floor (α := ℚ) (le_of_le_of_eq h1 hcast)
      rwa [Int.floor_intCast] at this
    have hlt : ⌊idx⌋.toNat < sv.length := by omega
    have hget : pyGet? sv (pyRound idx) = some (sv.get ⟨⌊idx⌋.toNat, hlt⟩) := by
      rw [hround]
      exact pyGet?_nonneg sv _ hf0 hlt
    refine ⟨sv.get ⟨⌊idx⌋.toNat, hlt⟩, ?_, ?_⟩
    · unfold interpAt; rw [if_pos hr]; exact hget
    · exact ⟨_, List.get_mem sv _ _, _, List.get_mem sv _ _, le_refl _, le_refl _⟩
  · -- fractional rank: interpolate between adjacent elements
    have htr : pyTrunc idx = ⌊idx⌋ := by
      unfold pyTrunc; rw [if_neg (not_lt.mpr h0)]
    have hneq : idx ≠ (sv.length : ℚ) - 1 := by
      intro heq
      exact hr (by rw [heq, hcast]; exact Int.fract_intCast _)
    have hlt1 : idx < (sv.length : ℚ) - 1 := lt_of_le_of_ne h1 hneq
    have hfl : ⌊idx⌋ < (sv.length : ℤ) - 1 := by
      rw [Int.floor_lt]
      exact lt_of_lt_of_eq hlt1 hcast
    have hf0 : 0 ≤ ⌊idx⌋ := Int.floor_nonneg.mpr h0
    have hltf : ⌊idx⌋.toNat < sv.length := by omega
    have hltf1 : ⌊idx⌋.toNat + 1 < sv.length := by omega
    have hgetf : pyGet? sv (pyTrunc idx) = some (sv.get ⟨⌊idx⌋.toNat, hltf⟩) := by
      rw [htr]
      exact pyGet?_nonneg sv _ hf0 hltf
    have htoNat : (⌊idx⌋ + 1).toNat = ⌊idx⌋.toNat + 1 := by omega
    have hltf2 : (⌊idx⌋ + 1).toNat < sv.length := by omega
    have hgetc : pyGet? sv (pyTrunc idx + 1) = some (sv.get ⟨⌊idx⌋.toNat + 1, hltf1⟩) := by
      rw [htr]
      have := pyGet?_nonneg sv (⌊idx⌋ + 1) (by omega) hltf2
      rw [this]
      congr 1
      exact List.get_of_eq rfl _ ▸ congrArg sv.get (Fin.ext htoNat)
    have hlohi : sv.get ⟨⌊idx⌋.toNat, hltf⟩ ≤ sv.get ⟨⌊idx⌋.toNat + 1, hltf1⟩ :=
      hs.rel_get_of_lt (by simp [Fin.mk_lt_mk])
    have hrem0 : 0 ≤ Int.fract idx := Int.fract_nonneg idx
    have hrem1 : Int.fract idx < 1 := Int.fract_lt_one idx
    refine ⟨sv.get ⟨⌊idx⌋.toNat, hltf⟩ +
      (sv.get ⟨⌊idx⌋.toNat + 1, hltf1⟩ - sv.get ⟨⌊idx⌋.toNat, hltf⟩) * Int.fract idx, ?_, ?_⟩
    · unfold interpAt; rw [if_neg hr, hgetf, hgetc]
    · refine ⟨sv.get ⟨⌊idx⌋.toNat, hltf⟩, List.get_mem sv _ _,
        sv.get ⟨⌊idx⌋.toNat + 1, hltf1⟩, List.get_mem sv _ _, ?_, ?_⟩
      · nlinarith [mul_nonneg (sub_nonneg.mpr hlohi) hrem0]
      · nlinarith [mul_le_of_le_one_right (sub_nonneg.mpr hlohi) (le_of_lt hrem1)]

/-- Totality and bounds of `percentile` for a percentile argument in
`[0, 100]`. -/
lemma percentile_some_bounded (v : List ℚ) (p : ℚ) (h0 : 0 ≤ p) (h100 : p ≤ 100) :
    ∃ x, percentile v p = some x ∧ (v ≠ [] → listMin v ≤ x ∧ x ≤ listMax v) := by
  by_cases hv : v = []
  · exact ⟨0, by simp [percentile, hv], fun h => absurd hv h⟩
  · have hperm := List.perm_insertionSort (· ≤ ·) v
    have hs := List.sorted_insertionSort (· ≤ ·) v
    have hlen : (v.insertionSort (· ≤ ·)).length = v.length := hperm.length_eq
    have hne : v.insertionSort (· ≤ ·) ≠ [] := by
      intro h
      exact hv (List.eq_nil_of_length_eq_zero (by rw [← hlen, h]; rfl))
    have hn : 1 ≤ (v.insertionSort (· ≤ ·)).length := List.length_pos.mpr hne
    set p2 : ℚ := if 1 < p then p / 100 else p with hp2
    have hp20 : 0 ≤ p2 := by
      rw [hp2]; split
      · positivity
      · exact h0
    have hp21 : p2 ≤ 1 := by
      rw [hp2]; split
      · linarith
      · linarith [not_lt.mp (by assumption : ¬1 < p)]
    have hn1 : (0 : ℚ) ≤ (((v.insertionSort (· ≤ ·)).length : ℚ) - 1) := by
      have : (1 : ℚ) ≤ ((v.insertionSort (· ≤ ·)).length : ℚ) := by exact_mod_cast hn
      linarith
    have hidx0 : 0 ≤ (((v.insertionSort (· ≤ ·)).length : ℚ) - 1) * p2 :=
      mul_nonneg hn1 hp20
    have hidx1 : (((v.insertionSort (· ≤ ·)).length : ℚ) - 1) * p2 ≤
        ((v.insertionSort (· ≤ ·)).length : ℚ) - 1 :=
      mul_le_of_le_one_right hn1 hp21
    obtain ⟨x, hx, lo, hlo, hi, hhi, hxl, hxh⟩ :=
      interpAt_some_bounded _ hs hne _ hidx0 hidx1
    refine ⟨x, ?_, fun _ => ⟨?_, ?_⟩⟩
    · unfold percentile
      rw [if_neg hv, ← hp2]
      exact hx
    · exact le_trans (listMin_le (hperm.mem_iff.mp hlo)) hxl
    · exact le_trans hxh (le_listMax (hperm.mem_iff.mp hhi))

/-- `percentile(v, 1.0)` is the maximum of a nonempty list. -/
lemma percentile_one_max (v : List ℚ) (hv : v ≠ []) : percentile v 1 = some (listMax v) := by
  have hperm := List.perm_insertionSort (· ≤ ·) v
  have hs := List.sorted_insertionSort (· ≤ ·) v
  have hlen : (v.insertionSort (· ≤ ·)).length = v.length := hperm.length_eq
  have hne : v.insertionSort (· ≤ ·) ≠ [] := by
    intro h
    exact hv (List.eq_nil_of_length_eq_zero (by rw [← hlen, h]; rfl))
  have hn : 1 ≤ (v.insertionSort (· ≤ ·)).length := List.length_pos.mpr hne
  unfold percentile
  rw [if_neg hv, if_neg (lt_irrefl (1 : ℚ)), mul_one]
  have hidx : (((v.insertionSort (· ≤ ·)).length : ℚ) - 1) =
      (((v.insertionSort (· ≤ ·)).length - 1 : ℕ) : ℚ) := by
    rw [Nat.cast_sub hn, Nat.cast_one]
  have hk : (v.insertionSort (· ≤ ·)).length - 1 < (v.insertionSort (· ≤ ·)).length := by omega
  rw [hidx, interpAt_natIdx _ _ hk]
  congr 1
  have hgl := List.getLast_eq_get (v.insertionSort (· ≤ ·)) hne
  rw [← hgl]
  apply le_antisymm
  · exact le_listMax (hperm.mem_iff.mp (List.getLast_mem hne))
  · exact sorted_le_getLast hs hne _ (hperm.mem_iff.mpr (listMax_mem hv))

/-- `percentile(v, 0.0)` is the minimum of a nonempty list. -/
lemma percentile_zero_min (v : List ℚ) (hv : v ≠ []) : percentile v 0 = some (listMin v) := by
  have hperm := List.perm_insertionSort (· ≤ ·) v
  have hs := List.sorted_insertionSort (· ≤ ·) v
  have hlen : (v.insertionSort (· ≤ ·)).length = v.length := hperm.length_eq
  have hne : v.insertionSort (· ≤ ·) ≠ [] := by
    intro h
    exact hv (List.eq_nil_of_length_eq_zero (by rw [← hlen, h]; rfl))
  have hn : 1 ≤ (v.insertionSort (· ≤ ·)).length := List.length_pos.mpr hne
  have h0 : 0 < (v.insertionSort (· ≤ ·)).length := hn
  unfold percentile
  rw [if_neg hv, if_neg (by norm_num : ¬(1 : ℚ) < 0), mul_zero,
    show (0 : ℚ) = ((0 : ℕ) : ℚ) by norm_num, interpAt_natIdx _ _ h0]
  congr 1
  apply le_antisymm
  · exact sorted_get_zero_le hs h0 _ (hperm.mem_iff.mpr (listMin_mem hv))
  · exact listMin_le (hperm.mem_iff.mp (List.get_mem _ _ _))

/-! ## Lemmas about the retry/adaptive-size controller -/

lemma minDurationOf_nil : minDurationOf [] = 0 := rfl

/-- Under a transport that always answers with a non-429 HTTP error, the
attempt fails with no sample, and every request is issued at the same
size: one request if the size is at the floor, otherwise one per loop
iteration until the retry budget is gone. -/
lemma attemptGo_nonRL (mk : Option ℚ → ℚ → ℚ → ℕ → ℕ → Sample) (t : ℕ → Resp)
    (h : ∀ i, ∃ st ra, t i = .httpErr st ra ∧ st ≠ 429) (size : ℕ) :
    ∀ (fuel rc reqIdx : ℕ), rc ≤ MAX_RETRIES →
      (attemptGo mk t reqIdx size rc fuel).2 = .failed ∧
      requestSizes (attemptGo mk t reqIdx size rc fuel).1 =
        List.replicate (if size ≤ MIN_BYTES_PER_REQ then min fuel 1
          else min fuel (MAX_RETRIES + 1 - rc)) size := by
  intro fuel
  induction fuel with
  | zero =>
      intro rc reqIdx hrc
      constructor
      · rfl
      · have : (if size ≤ MIN_BYTES_PER_REQ then min 0 1
            else min 0 (MAX_RETRIES + 1 - rc)) = 0 := by split <;> omega
        rw [this]
        rfl
  | succ n ih =>
      intro rc reqIdx hrc
      obtain ⟨st, ra, hteq, hne⟩ := h reqIdx
      simp only [attemptGo, hteq, if_neg hne]
      by_cases hstop : MAX_RETRIES ≤ rc ∨ size ≤ MIN_BYTES_PER_REQ
      · rw [if_pos hstop]
        refine ⟨rfl, ?_⟩
        have : (if size ≤ MIN_BYTES_PER_REQ then min (n + 1) 1
            else min (n + 1) (MAX_RETRIES + 1 - rc)) = 1 := by
          rcases hstop with hs | hs <;> split <;> omega
        rw [this]
        rfl
      · rw [if_neg hstop]
        push_neg at hstop
        obtain ⟨hout, hsz⟩ := ih (rc + 1) (reqIdx + 1) (by omega)
        refine ⟨hout, ?_⟩
        show size :: requestSizes (attemptGo mk t (reqIdx + 1) size (rc + 1) n).1 = _
        rw [hsz, if_neg (by omega : ¬size ≤ MIN_BYTES_PER_REQ),
          if_neg (by omega : ¬size ≤ MIN_BYTES_PER_REQ),
          show min (n + 1) (MAX_RETRIES + 1 - rc) =
            min n (MAX_RETRIES + 1 - (rc + 1)) + 1 by omega,
          List.replicate_succ]

/-- State invariant of one probe attempt started at or above the floor:
request sizes stay within `[floor, initial]` and are non-increasing in
request order; the `retry_count` annotation of every trace event is at
most `rc + fuel` (at most 4 from the top), and is at most `rc + fuel - 1`
(at most 3 from the top) at each issued request. -/
lemma attemptGo_invariant (mk : Option ℚ → ℚ → ℚ → ℕ → ℕ → Sample) (t : ℕ → Resp) :
    ∀ (fuel reqIdx size rc : ℕ), MIN_BYTES_PER_REQ ≤ size →
      (∀ s, s ∈ requestSizes (attemptGo mk t reqIdx size rc fuel).1 →
        MIN_BYTES_PER_REQ ≤ s ∧ s ≤ size) ∧
      List.Chain' (fun a b => b ≤ a) (requestSizes (attemptGo mk t reqIdx size rc fuel).1) ∧
      (∀ e ∈ (attemptGo mk t reqIdx size rc fuel).1, eventRc e ≤ rc + fuel) ∧
      (∀ s r2, Event.request s r2 ∈ (attemptGo mk t reqIdx size rc fuel).1 →
        r2 + 1 ≤ rc + fuel) := by
  intro fuel
  induction fuel with
  | zero =>
      intro reqIdx size rc hsz
      refine ⟨?_, ?_, ?_, ?_⟩ <;> simp [attemptGo, requestSizes]
  | succ n ih =>
      intro reqIdx size rc hsz
      cases hteq : t reqIdx with
      | exn =>
          simp only [attemptGo, hteq]
          refine ⟨?_, ?_, ?_, ?_⟩ <;> simp [requestSizes, eventRc] <;> omega
      | ok st ttfb total transfer =>
          simp only [attemptGo, hteq]
          refine ⟨?_, ?_, ?_, ?_⟩ <;> simp [requestSizes, eventRc] <;> omega
      | httpErr status ra =>
          simp only [attemptGo, hteq]
          by_cases h429 : status = 429
          · rw [if_pos h429]
            by_cases hshrink : MIN_BYTES_PER_REQ < size ∧
                max MIN_BYTES_PER_REQ (size / 2) < size
            · rw [if_pos hshrink]
              have hnext : MIN_BYTES_PER_REQ ≤ max MIN_BYTES_PER_REQ (size / 2) :=
                le_max_left _ _
              obtain ⟨ihsz, ihch, ihrc, ihreq⟩ := ih (reqIdx + 1) _ (rc + 1) hnext
              refine ⟨?_, ?_, ?_, ?_⟩
              · intro s hs
                rw [show requestSizes (Event.request size rc ::
                    Event.shrinkSleep (max MIN_BYTES_PER_REQ (size / 2)) (rc + 1) ::
                    (attemptGo mk t (reqIdx + 1) (max MIN_BYTES_PER_REQ (size / 2))
                      (rc + 1) n).1) =
                  size :: requestSizes (attemptGo mk t (reqIdx + 1)
                    (max MIN_BYTES_PER_REQ (size / 2)) (rc + 1) n).1 from rfl] at hs
                rcases List.mem_cons.mp hs with rfl | hs2
                · exact ⟨hsz, le_refl s⟩
                · obtain ⟨hl, hr⟩ := ihsz s hs2
                  exact ⟨hl, le_trans hr (le_of_lt hshrink.2)⟩
              · show List.Chain' (fun a b => b ≤ a) (size :: requestSizes _)
                rw [List.chain'_cons']
                refine ⟨?_, ihch⟩
                intro b hb
                have hbmem : b ∈ requestSizes (attemptGo mk t (reqIdx + 1)
                    (max MIN_BYTES_PER_REQ (size / 2)) (rc + 1) n).1 :=
                  List.mem_of_mem_head? hb
                exact le_trans (ihsz b hbmem).2 (le_of_lt hshrink.2)
              · intro e he
                rcases List.mem_cons.mp he with rfl | he2
                · show rc ≤ rc + (n + 1); omega
                rcases List.mem_cons.mp he2 with rfl | he3
                · show rc + 1 ≤ rc + (n + 1); omega
                · have := ihrc e he3; omega
              · intro s r2 hreq
                rcases List.mem_cons.mp hreq with heq | hreq2
                · cases heq; omega
                rcases List.mem_cons.mp hreq2 with heq | hreq3
                · cases heq
                · have := ihreq s r2 hreq3; omega
            · rw [if_neg hshrink]
              by_cases hrcm : rc < MAX_RETRIES
              · rw [if_pos hrcm]
                obtain ⟨ihsz, ihch, ihrc, ihreq⟩ := ih (reqIdx + 1) size (rc + 1) hsz
                refine ⟨?_, ?_, ?_, ?_⟩
                · intro s hs
                  rw [show requestSizes (Event.request size rc ::
                      Event.backoffSleep ((ra.getD DEFAULT_RETRY_DELAY) * 2 ^ rc) rc ::
                      (attemptGo mk t (reqIdx + 1) size (rc + 1) n).1) =
                    size :: requestSizes (attemptGo mk t (reqIdx + 1) size (rc + 1) n).1
                    from rfl] at hs
                  rcases List.mem_cons.mp hs with rfl | hs2
                  · exact ⟨hsz, le_refl s⟩
                  · exact ihsz s hs2
                · show List.Chain' (fun a b => b ≤ a) (size :: requestSizes _)
                  rw [List.chain'_cons']
                  refine ⟨?_, ihch⟩
                  intro b hb
                  exact (ihsz b (List.mem_of_mem_head? hb)).2
                · intro e he
                  rcases List.mem_cons.mp he with rfl | he2
                  · show rc ≤ rc + (n + 1); omega
                  rcases List.mem_cons.mp he2 with rfl | he3
                  · show rc ≤ rc + (n + 1); omega
                  · have := ihrc e he3; omega
                · intro s r2 hreq
                  rcases List.mem_cons.mp hreq with heq | hreq2
                  · cases heq; omega
                  rcases List.mem_cons.mp hreq2 with heq | hreq3
                  · cases heq
                  · have := ihreq s r2 hreq3; omega
              · rw [if_neg hrcm]
                refine ⟨?_, ?_, ?_, ?_⟩ <;> simp [requestSizes, eventRc] <;> omega
          · rw [if_neg h429]
            by_cases hstop : MAX_RETRIES ≤ rc ∨ size ≤ MIN_BYTES_PER_REQ
            · rw [if_pos hstop]
              refine ⟨?_, ?_, ?_, ?_⟩ <;> simp [requestSizes, eventRc] <;> omega
            · rw [if_neg hstop]
              obtain ⟨ihsz, ihch, ihrc, ihreq⟩ := ih (reqIdx + 1) size (rc + 1) hsz
              refine ⟨?_, ?_, ?_, ?_⟩
              · intro s hs
                rw [show requestSizes (Event.request size rc :: Event.errSleep (rc + 1) ::
                    (attemptGo mk t (reqIdx + 1) size (rc + 1) n).1) =
                  size :: requestSizes (attemptGo mk t (reqIdx + 1) size (rc + 1) n).1
                  from rfl] at hs
                rcases List.mem_cons.mp hs with rfl | hs2
                · exact ⟨hsz, le_refl s⟩
                · exact ihsz s hs2
              · show List.Chain' (fun a b => b ≤ a) (size :: requestSizes _)
                rw [List.chain'_cons']
                refine ⟨?_, ihch⟩
                intro b hb
                exact (ihsz b (List.mem_of_mem_head? hb)).2
              · intro e he
                rcases List.mem_cons.mp he with rfl | he2
                · show rc ≤ rc + (n + 1); omega
                rcases List.mem_cons.mp he2 with rfl | he3
                · show rc + 1 ≤ rc + (n + 1); omega
                · have := ihrc e he3; omega
              · intro s r2 hreq
                rcases List.mem_cons.mp hreq with heq | hreq2
                · cases heq; omega
                rcases List.mem_cons.mp hreq2 with heq | hreq3
                · cases heq
                · have := ihreq s r2 hreq3; omega

/-- Every success sample of an attempt is built by the sample
constructor `mk`. -/
lemma attemptGo_success_shape (mk : Option ℚ → ℚ → ℚ → ℕ → ℕ → Sample) (t : ℕ → Resp) :
    ∀ (fuel reqIdx size rc : ℕ) (s : Sample),
      (attemptGo mk t reqIdx size rc fuel).2 = .success s →
      ∃ st ttfb total transfer size2, s = mk st ttfb total transfer size2 := by
  intro fuel
  induction fuel with
  | zero => intro reqIdx size rc s hs; exact absurd hs (by simp [attemptGo])
  | succ n ih =>
      intro reqIdx size rc s hs
      cases hteq : t reqIdx with
      | exn => rw [show (attemptGo mk t reqIdx size rc (n + 1)).2 = .failed by
          simp [attemptGo, hteq]] at hs; cases hs
      | ok st ttfb total transfer =>
          rw [show (attemptGo mk t reqIdx size rc (n + 1)).2 =
            .success (mk st ttfb total transfer size) by simp [attemptGo, hteq]] at hs
          cases hs
          exact ⟨st, ttfb, total, transfer, size, rfl⟩
      | httpErr status ra =>
          simp only [attemptGo, hteq] at hs
          by_cases h429 : status = 429
          · rw [if_pos h429] at hs
            by_cases hshrink : MIN_BYTES_PER_REQ < size ∧
                max MIN_BYTES_PER_REQ (size / 2) < size
            · rw [if_pos hshrink] at hs
              exact ih _ _ _ s hs
            · rw [if_neg hshrink] at hs
              by_cases hrcm : rc < MAX_RETRIES
              · rw [if_pos hrcm] at hs
                exact ih _ _ _ s hs
              · rw [if_neg hrcm] at hs; cases hs
          · rw [if_neg h429] at hs
            by_cases hstop : MAX_RETRIES ≤ rc ∨ size ≤ MIN_BYTES_PER_REQ
            · rw [if_pos hstop] at hs; cases hs
            · rw [if_neg hstop] at hs
              exact ih _ _ _ s hs

lemma pyTrunc_nonneg {q : ℚ} (h : 0 ≤ q) : (0 : ℚ) ≤ ((pyTrunc q : ℤ) : ℚ) := by
  unfold pyTrunc
  rw [if_neg (not_lt.mpr h)]
  exact_mod_cast Int.floor_nonneg.mpr h

lemma mkDownloadSample_duration_pos (st : Option ℚ) (ttfb total : ℚ) (transfer size : ℕ) :
    0 < (mkDownloadSample st ttfb total transfer size).duration := by
  show 0 < max (1/100) (ttfb - serverTimeOr st) + max 1 (max 1 (total - ttfb))
  have h1 := le_max_left ((1 : ℚ)/100) (ttfb - serverTimeOr st)
  have h2 := le_max_left (1 : ℚ) (max 1 (total - ttfb))
  linarith

lemma mkDownloadSample_bps_nonneg (st : Option ℚ) (ttfb total : ℚ) (transfer size : ℕ) :
    0 ≤ (mkDownloadSample st ttfb total transfer size).bps := by
  show 0 ≤ if 0 < max (1/100) (ttfb - serverTimeOr st) + max 1 (max 1 (total - ttfb))
    then codeDownloadBits transfer size /
      ((max (1/100) (ttfb - serverTimeOr st) + max 1 (max 1 (total - ttfb))) / 1000)
    else 0
  have hbits : 0 ≤ codeDownloadBits transfer size := by
    unfold codeDownloadBits
    split
    · positivity
    · have : (0 : ℚ) ≤ ((pyTrunc ((size : ℚ) * (1 + ESTIMATED_HEADER_FRACTION)) : ℤ) : ℚ) :=
        pyTrunc_nonneg (by unfold ESTIMATED_HEADER_FRACTION; positivity)
      linarith
  split
  · next hpos => positivity
  · exact le_refl 0

lemma mkUploadSample_duration_pos (st : Option ℚ) (ttfb total : ℚ) (transfer size : ℕ) :
    0 < (mkUploadSample st ttfb total transfer size).duration := by
  show 0 < max 1 ttfb
  have := le_max_left (1 : ℚ) ttfb
  linarith

lemma mkUploadSample_bps_nonneg (st : Option ℚ) (ttfb total : ℚ) (transfer size : ℕ) :
    0 ≤ (mkUploadSample st ttfb total transfer size).bps := by
  show 0 ≤ if 0 < max 1 ttfb
    then 8 * (size : ℚ) * (1 + ESTIMATED_HEADER_FRACTION) / (max 1 ttfb / 1000)
    else 0
  have hm := le_max_left (1 : ℚ) ttfb
  rw [if_pos (by linarith)]
  have : (0 : ℚ) ≤ 8 * (size : ℚ) * (1 + ESTIMATED_HEADER_FRACTION) := by
    unfold ESTIMATED_HEADER_FRACTION; positivity
  positivity

/-- All samples collected by a measure call have non-negative `bps`,
provided the sample constructor only yields non-negative `bps`. -/
lemma measureBandwidth_bps_nonneg (mk : Option ℚ → ℚ → ℚ → ℕ → ℕ → Sample)
    (hmk : ∀ st ttfb total transfer size, 0 ≤ (mk st ttfb total transfer size).bps)
    (t : ℕ → ℕ → Resp) (b c : ℕ) :
    ∀ x ∈ (measureBandwidth mk t b c).1, 0 ≤ x.bps := by
  intro x hx
  have hx2 : x ∈ ((List.range c).map fun i => runAttempt mk (t i) b).filterMap
      (fun o => match o.2 with | .success s => some s | .failed => none) := hx
  rw [List.mem_filterMap] at hx2
  obtain ⟨o, hmem, ho⟩ := hx2
  have hsucc : o.2 = .success x := by
    cases h2 : o.2 with
    | success s => rw [h2] at ho; cases ho; rfl
    | failed => rw [h2] at ho; cases ho
  rw [List.mem_map] at hmem
  obtain ⟨i, -, rfl⟩ := hmem
  obtain ⟨st, ttfb, total, transfer, size2, rfl⟩ :=
    attemptGo_success_shape mk (t i) (MAX_RETRIES + 1) 0 b 0 x hsucc
  exact hmk _ _ _ _ _

/-! ## Lemmas about the phase sequencer and assembler -/

lemma statesUpTo_succ (dlT ulT : ℕ → ℕ → ℕ → Resp) (latT : ℕ → ℕ → Resp)
    (i : ℕ) (p : ℕ × Phase) (h : measurementsIdx[i]? = some p) :
    statesUpTo dlT ulT latT (i + 1) =
      phaseStep dlT ulT latT (statesUpTo dlT ulT latT i) p := by
  unfold statesUpTo
  rw [List.take_succ, h]
  simp [List.foldl_append]

lemma phaseStep_download_finished_iff (dlT ulT : ℕ → ℕ → ℕ → Resp) (latT : ℕ → ℕ → Resp)
    (s : RunState) (idx : ℕ) (ph : Phase)
    (hk : ph.kind = .download) (hb : ph.bypass = false) (hf : s.downloadFinished = false) :
    ((phaseStep dlT ulT latT s (idx, ph)).downloadFinished = true ↔
      ((measureBandwidth mkDownloadSample (dlT idx) ph.bytes ph.count).1 ≠ [] ∧
        BANDWIDTH_FINISH_REQUEST_DURATION <
          (measureBandwidth mkDownloadSample (dlT idx) ph.bytes ph.count).2)) := by
  unfold phaseStep
  simp only [hk, hb, hf, Bool.not_false, Bool.true_and, Bool.false_eq_true, if_false,
    Bool.and_eq_true, decide_eq_true_eq]
  constructor
  · rintro ⟨h0, h1⟩
    refine ⟨?_, h1⟩
    intro hnil
    rw [show (measureBandwidth mkDownloadSample (dlT idx) ph.bytes ph.count).2 =
      minDurationOf (measureBandwidth mkDownloadSample (dlT idx) ph.bytes ph.count).1
      from rfl, hnil, minDurationOf_nil] at h0
    exact absurd h0 (lt_irrefl 0)
  · rintro ⟨-, h1⟩
    exact ⟨lt_trans (by norm_num [BANDWIDTH_FINISH_REQUEST_DURATION]) h1, h1⟩

lemma phaseStep_upload_finished_iff (dlT ulT : ℕ → ℕ → ℕ → Resp) (latT : ℕ → ℕ → Resp)
    (s : RunState) (idx : ℕ) (ph : Phase)
    (hk : ph.kind = .upload) (hb : ph.bypass = false) (hf : s.uploadFinished = false) :
    ((phaseStep dlT ulT latT s (idx, ph)).uploadFinished = true ↔
      ((measureBandwidth mkUploadSample (ulT idx) ph.bytes ph.count).1 ≠ [] ∧
        BANDWIDTH_FINISH_REQUEST_DURATION <
          (measureBandwidth mkUploadSample (ulT idx) ph.bytes ph.count).2)) := by
  unfold phaseStep
  simp only [hk, hb, hf, Bool.not_false, Bool.true_and, Bool.false_eq_true, if_false,
    Bool.and_eq_true, decide_eq_true_eq]
  constructor
  · rintro ⟨h0, h1⟩
    refine ⟨?_, h1⟩
    intro hnil
    rw [show (measureBandwidth mkUploadSample (ulT idx) ph.bytes ph.count).2 =
      minDurationOf (measureBandwidth mkUploadSample (ulT idx) ph.bytes ph.count).1
      from rfl, hnil, minDurationOf_nil] at h0
    exact absurd h0 (lt_irrefl 0)
  · rintro ⟨-, h1⟩
    exact ⟨lt_trans (by norm_num [BANDWIDTH_FINISH_REQUEST_DURATION]) h1, h1⟩

lemma phaseStep_download_skip (dlT ulT : ℕ → ℕ → ℕ → Resp) (latT : ℕ → ℕ → Resp)
    (s : RunState) (idx : ℕ) (ph : Phase)
    (hk : ph.kind = .download) (hf : s.downloadFinished = true) :
    phaseStep dlT ulT latT s (idx, ph) = s := by
  unfold phaseStep
  simp only [hk]
  rw [if_pos hf]

lemma phaseStep_upload_skip (dlT ulT : ℕ → ℕ → ℕ → Resp) (latT : ℕ → ℕ → Resp)
    (s : RunState) (idx : ℕ) (ph : Phase)
    (hk : ph.kind = .upload) (hf : s.uploadFinished = true) :
    phaseStep dlT ulT latT s (idx, ph) = s := by
  unfold phaseStep
  simp only [hk]
  rw [if_pos hf]

lemma phaseStep_downloadFinished_mono (dlT ulT : ℕ → ℕ → ℕ → Resp) (latT : ℕ → ℕ → Resp)
    (s : RunState) (ip : ℕ × Phase) (hf : s.downloadFinished = true) :
    (phaseStep dlT ulT latT s ip).downloadFinished = true := by
  obtain ⟨idx, k, b, c, byp⟩ := ip
  unfold phaseStep
  cases k <;> dsimp only
  · simpa using hf
  · rw [if_pos hf]
    exact hf
  · split
    · exact hf
    · simpa using hf

lemma phaseStep_uploadFinished_mono (dlT ulT : ℕ → ℕ → ℕ → Resp) (latT : ℕ → ℕ → Resp)
    (s : RunState) (ip : ℕ × Phase) (hf : s.uploadFinished = true) :
    (phaseStep dlT ulT latT s ip).uploadFinished = true := by
  obtain ⟨idx, k, b, c, byp⟩ := ip
  unfold phaseStep
  cases k <;> dsimp only
  · simpa using hf
  · split
    · exact hf
    · simpa using hf
  · rw [if_pos hf]
    exact hf

lemma phaseStep_latency_executed (dlT ulT : ℕ → ℕ → ℕ → Resp) (latT : ℕ → ℕ → Resp)
    (s : RunState) (idx : ℕ) (ph : Phase) (hk : ph.kind = .latency) :
    (phaseStep dlT ulT latT s (idx, ph)).executed = s.executed ++ [idx] := by
  unfold phaseStep
  simp only [hk]

lemma phaseStep_upload_executed (dlT ulT : ℕ → ℕ → ℕ → Resp) (latT : ℕ → ℕ → Resp)
    (s : RunState) (idx : ℕ) (ph : Phase)
    (hk : ph.kind = .upload) (hf : s.uploadFinished = false) :
    (phaseStep dlT ulT latT s (idx, ph)).executed = s.executed ++ [idx] := by
  unfold phaseStep
  simp only [hk, hf, Bool.false_eq_true, if_false]

lemma phaseStep_download_executed (dlT ulT : ℕ → ℕ → ℕ → Resp) (latT : ℕ → ℕ → Resp)
    (s : RunState) (idx : ℕ) (ph : Phase)
    (hk : ph.kind = .download) (hf : s.downloadFinished = false) :
    (phaseStep dlT ulT latT s (idx, ph)).executed = s.executed ++ [idx] := by
  unfold phaseStep
  simp only [hk, hf, Bool.false_eq_true, if_false]

/-- No phase ever touches the failed-size lists: their only writers in
the source sit inside the unreachable `except RateLimitError` handlers
of the phase loop. -/
lemma phaseStep_failedSizes (dlT ulT : ℕ → ℕ → ℕ → Resp) (latT : ℕ → ℕ → Resp)
    (s : RunState) (ip : ℕ × Phase) :
    (phaseStep dlT ulT latT s ip).failedDownloadSizes = s.failedDownloadSizes ∧
    (phaseStep dlT ulT latT s ip).failedUploadSizes = s.failedUploadSizes := by
  obtain ⟨idx, k, b, c, byp⟩ := ip
  unfold phaseStep
  cases k <;> dsimp only
  · exact ⟨rfl, rfl⟩
  · split
    · exact ⟨rfl, rfl⟩
    · exact ⟨rfl, rfl⟩
  · split
    · exact ⟨rfl, rfl⟩
    · exact ⟨rfl, rfl⟩

/-- The failed-size context of both direction failures is always the
empty list. -/
lemma finalState_failedSizes (dlT ulT : ℕ → ℕ → ℕ → Resp) (latT : ℕ → ℕ → Resp) :
    (finalState dlT ulT latT).failedDownloadSizes = [] ∧
    (finalState dlT ulT latT).failedUploadSizes = [] := by
  have hgen : ∀ (l : List (ℕ × Phase)) (s : RunState),
      (l.foldl (phaseStep dlT ulT latT) s).failedDownloadSizes = s.failedDownloadSizes ∧
      (l.foldl (phaseStep dlT ulT latT) s).failedUploadSizes = s.failedUploadSizes := by
    intro l
    induction l with
    | nil => intro s; exact ⟨rfl, rfl⟩
    | cons ip rest ih =>
        intro s
        obtain ⟨hd, hu⟩ := phaseStep_failedSizes dlT ulT latT s ip
        obtain ⟨hd2, hu2⟩ := ih (phaseStep dlT ulT latT s ip)
        exact ⟨hd2.trans hd, hu2.trans hu⟩
  exact hgen measurementsIdx initState

lemma phaseStep_bps_nonneg (dlT ulT : ℕ → ℕ → ℕ → Resp) (latT : ℕ → ℕ → Resp)
    (s : RunState) (ip : ℕ × Phase)
    (hd : ∀ x ∈ s.downloadResults, 0 ≤ x.bps) (hu : ∀ x ∈ s.uploadResults, 0 ≤ x.bps) :
    (∀ x ∈ (phaseStep dlT ulT latT s ip).downloadResults, 0 ≤ x.bps) ∧
    (∀ x ∈ (phaseStep dlT ulT latT s ip).uploadResults, 0 ≤ x.bps) := by
  obtain ⟨idx, k, b, c, byp⟩ := ip
  unfold phaseStep
  cases k <;> dsimp only
  · exact ⟨by simpa using hd, by simpa using hu⟩
  · split
    · exact ⟨hd, hu⟩
    · refine ⟨?_, by simpa using hu⟩
      intro x hx
      simp only at hx
      rcases List.mem_append.mp hx with hx1 | hx2
      · exact hd x hx1
      · exact measureBandwidth_bps_nonneg mkDownloadSample mkDownloadSample_bps_nonneg
          (dlT idx) b c x (List.mem_of_mem_filter hx2)
  · split
    · exact ⟨hd, hu⟩
    · refine ⟨by simpa using hd, ?_⟩
      intro x hx
      simp only at hx
      rcases List.mem_append.mp hx with hx1 | hx2
      · exact hu x hx1
      · exact measureBandwidth_bps_nonneg mkUploadSample mkUploadSample_bps_nonneg
          (ulT idx) b c x (List.mem_of_mem_filter hx2)

lemma foldl_phaseStep_bps_nonneg (dlT ulT : ℕ → ℕ → ℕ → Resp) (latT : ℕ → ℕ → Resp) :
    ∀ (l : List (ℕ × Phase)) (s : RunState),
      (∀ x ∈ s.downloadResults, 0 ≤ x.bps) → (∀ x ∈ s.uploadResults, 0 ≤ x.bps) →
      (∀ x ∈ (l.foldl (phaseStep dlT ulT latT) s).downloadResults, 0 ≤ x.bps) ∧
      (∀ x ∈ (l.foldl (phaseStep dlT ulT latT) s).uploadResults, 0 ≤ x.bps) := by
  intro l
  induction l with
  | nil => intro s hd hu; exact ⟨hd, hu⟩
  | cons ip rest ih =>
      intro s hd hu
      obtain ⟨hd2, hu2⟩ := phaseStep_bps_nonneg dlT ulT latT s ip hd hu
      exact ih _ hd2 hu2

lemma finalState_bps_nonneg (dlT ulT : ℕ → ℕ → ℕ → Resp) (latT : ℕ → ℕ → Resp) :
    (∀ x ∈ (finalState dlT ulT latT).downloadResults, 0 ≤ x.bps) ∧
    (∀ x ∈ (finalState dlT ulT latT).uploadResults, 0 ≤ x.bps) :=
  foldl_phaseStep_bps_nonneg dlT ulT latT measurementsIdx initState
    (by intro x hx; cases hx) (by intro x hx; cases hx)

lemma qualifyingBps_pos (results : List Sample) (h : ∀ x ∈ results, 0 ≤ x.bps) :
    ∀ y ∈ qualifyingBps results, 0 < y := by
  intro y hy
  unfold qualifyingBps at hy
  rw [List.mem_map] at hy
  obtain ⟨m, hm, rfl⟩ := hy
  rw [List.mem_filter, Bool.and_eq_true, decide_eq_true_eq, decide_eq_true_eq] at hm
  exact lt_of_le_of_ne (h m hm.1) (Ne.symm hm.2.1)

lemma computeDirBps_of_qual_nil (results : List Sample) (bp : ℚ)
    (h : qualifyingBps results = []) : computeDirBps results bp = .ok none := by
  unfold computeDirBps
  by_cases hr : results = []
  · rw [if_pos hr]
  · rw [if_neg hr, if_pos h]

lemma computeDirBps_ok (results : List Sample) (bp : ℚ) (h0 : 0 ≤ bp) (h100 : bp ≤ 100) :
    ∃ o, computeDirBps results bp = .ok o := by
  unfold computeDirBps
  by_cases hr : results = []
  · exact ⟨none, by rw [if_pos hr]⟩
  by_cases hq : qualifyingBps results = []
  · exact ⟨none, by rw [if_neg hr, if_pos hq]⟩
  obtain ⟨x, hx, -⟩ := percentile_some_bounded (qualifyingBps results) bp h0 h100
  exact ⟨some x, by rw [if_neg hr, if_neg hq, hx]⟩

lemma computeDirBps_pos (results : List Sample) (bp : ℚ) (h0 : 0 ≤ bp) (h100 : bp ≤ 100)
    (hnn : ∀ x ∈ results, 0 ≤ x.bps) (hq : qualifyingBps results ≠ []) :
    ∃ b, computeDirBps results bp = .ok (some b) ∧ 0 < b := by
  have hr : results ≠ [] := by
    intro h
    exact hq (by rw [h]; rfl)
  obtain ⟨x, hx, hbound⟩ := percentile_some_bounded (qualifyingBps results) bp h0 h100
  have hb := hbound hq
  have hposmin : 0 < listMin (qualifyingBps results) :=
    qualifyingBps_pos _ hnn _ (listMin_mem hq)
  refine ⟨x, ?_, lt_of_lt_of_le hposmin hb.1⟩
  unfold computeDirBps
  rw [if_neg hr, if_neg hq, hx]

/-- Inversion of the Python truthiness conversion
`(bps / 8) if bps else None`. -/
lemma speedOf_some_inv {o : Option ℚ} {ds : ℚ} (h : speedOf o = some ds) :
    ∃ b, o = some b ∧ b ≠ 0 ∧ ds = b / 8 := by
  cases o with
  | none => cases h
  | some b =>
      rw [show speedOf (some b) = if b ≠ 0 then some (b / 8) else none from rfl] at h
      by_cases hb : b ≠ 0
      · refine ⟨b, rfl, hb, ?_⟩
        rw [if_pos hb] at h
        exact (Option.some.inj h).symm
      · rw [if_neg hb] at h
        cases h

/-- A direction bps can only be `some b` via the `percentile` call on the
qualifying samples. -/
lemma computeDirBps_some_inv {results : List Sample} {bp b : ℚ}
    (h : computeDirBps results bp = .ok (some b)) :
    percentile (qualifyingBps results) bp = some b := by
  simp only [computeDirBps] at h
  by_cases hr : results = []
  · rw [if_pos hr] at h
    cases h
  rw [if_neg hr] at h
  by_cases hq : qualifyingBps results = []
  · rw [if_pos hq] at h
    cases h
  rw [if_neg hq] at h
  split at h
  · cases h
    assumption
  · cases h

/-- Normalized percentile bounds from user-level percentile bounds. -/
lemma bandwidthPercentile_bounds (pv : ℚ) (h0 : 0 ≤ pv) (h100 : pv ≤ 100) :
    0 ≤ (if 1 < pv then pv / 100 else pv) ∧ (if 1 < pv then pv / 100 else pv) ≤ 100 := by
  split
  · constructor <;> [positivity; linarith]
  · exact ⟨h0, h100⟩

/-! # Claim theorems -/

/-- C8: `percentile` returns 0 on the empty list; normalizes a percentile
given as a percentage (> 1) by dividing by 100; `percentile([1,2,3,4],
0.5) = 2.5`; and on every nonempty list `percentile(v, 1.0)` is the
maximum and `percentile(v, 0.0)` the minimum.  (The normalization
equation needs `p ≤ 100`: for `p > 100` the divided-by-100 value is
itself above 1 and would be normalized again.) -/
theorem claim8_percentile_props :
    (∀ p : ℚ, percentile [] p = some 0) ∧
    (∀ (v : List ℚ) (p : ℚ), 1 < p → p ≤ 100 →
      percentile v p = percentile v (p / 100)) ∧
    percentile [1, 2, 3, 4] (1/2) = some (5/2) ∧
    (∀ v : List ℚ, v ≠ [] →
      percentile v 1 = some (listMax v) ∧ percentile v 0 = some (listMin v)) := by
  refine ⟨fun p => by simp [percentile], ?_, by with_unfolding_all rfl, fun v hv =>
    ⟨percentile_one_max v hv, percentile_zero_min v hv⟩⟩
  intro v p hp hp100
  by_cases hv : v = []
  · rw [hv]; simp [percentile]
  · unfold percentile
    rw [if_neg hv, if_neg hv, if_pos hp, if_neg (show ¬1 < p / 100 by linarith)]

/-- Witness for C8 at concrete inputs. -/
theorem claim8_witness :
    percentile [3, 1, 2] 1 = some 3 ∧ percentile [3, 1, 2] 0 = some 1 ∧
    percentile [1, 2] 50 = percentile [1, 2] (1/2) := by
  obtain ⟨-, hnorm, -, hminmax⟩ := claim8_percentile_props
  obtain ⟨h1, h0⟩ := hminmax [3, 1, 2] (by decide)
  refine ⟨?_, ?_, ?_⟩
  · rw [h1]; rfl
  · rw [h0]; rfl
  · have := hnorm [1, 2] 50 (by norm_num) (by norm_num)
    rw [this, show (50 : ℚ) / 100 = 1/2 by norm_num]

/-- C10: for `0 ≤ p ≤ 100`, `percentile` performs only in-bounds
indexing (it returns `some` value, never the `IndexError` `none`), and
on a nonempty list the value lies between the list minimum and maximum. -/
theorem claim10_percentile_safe (v : List ℚ) (p : ℚ) (h0 : 0 ≤ p) (h100 : p ≤ 100) :
    ∃ x, percentile v p = some x ∧ (v ≠ [] → listMin v ≤ x ∧ x ≤ listMax v) :=
  percentile_some_bounded v p h0 h100

/-- Witness for C10 at a concrete input. -/
theorem claim10_witness : percentile [5, 1, 3] 50 ≠ none := by
  obtain ⟨x, hx, -⟩ := claim10_percentile_safe [5, 1, 3] 50 (by norm_num) (by norm_num)
  simp [hx]

/-- C1 counterexample: with every request answered 429 and initial size
1,000,000, the code issues requests at 1,000,000, 500,000, 250,000 and
125,000 only — each halving increments `retry_count` (its value is
annotated on each event), so after the fourth 429 the clamped floor size
is never requested, and no exponential-backoff sleep ever happens,
contrary to the claimed size sequence ending at the floor followed by
backoff sleeps that do not consume the retry budget. -/
theorem claim1_counterexample :
    runAttempt mkDownloadSample all429T 1000000 =
      ([.request 1000000 0, .shrinkSleep 500000 1, .request 500000 1, .shrinkSleep 250000 2,
        .request 250000 2, .shrinkSleep 125000 3, .request 125000 3, .shrinkSleep 100000 4],
       .failed) ∧
    requestSizes (runAttempt mkDownloadSample all429T 1000000).1 ≠
      [1000000, 500000, 250000, 125000, 100000] ∧
    (runAttempt mkDownloadSample all429T 1000000).1.countP isBackoffSleep = 0 := by
  refine ⟨by with_unfolding_all rfl, ?_, by with_unfolding_all rfl⟩
  have h : requestSizes (runAttempt mkDownloadSample all429T 1000000).1 =
      [1000000, 500000, 250000, 125000] := by with_unfolding_all rfl
  rw [h]
  decide

/-- C1 amended: under constant 429s from 1,000,000 bytes, the halving
steps (100 ms sleeps) do consume the retry budget: requests go out at
1,000,000, 500,000, 250,000, 125,000, then the size is clamped to the
100,000 floor with `retry_count = 4 > 3` and the attempt fails with no
backoff sleep, no request at the floor and no sample.  Exponential
backoff `retryAfterHint * 2 ** retryCount` happens only for an attempt
already at the floor: starting at 100,000 with `Retry-After: 5` there
are backoff sleeps of 5, 10 and 20 s, then the fourth 429 exhausts the
ceiling and the attempt fails with no sample. -/
theorem claim1_amended :
    runAttempt mkDownloadSample all429T 1000000 =
      ([.request 1000000 0, .shrinkSleep 500000 1, .request 500000 1, .shrinkSleep 250000 2,
        .request 250000 2, .shrinkSleep 125000 3, .request 125000 3, .shrinkSleep 100000 4],
       .failed) ∧
    runAttempt mkDownloadSample all429hT 100000 =
      ([.request 100000 0, .backoffSleep 5 0, .request 100000 1, .backoffSleep 10 1,
        .request 100000 2, .backoffSleep 20 2, .request 100000 3], .failed) :=
  ⟨by with_unfolding_all rfl, by with_unfolding_all rfl⟩

/-- C3 counterexample: a 403 at size 1,000,000 (above the floor, retry
count 0) is NOT an immediate failure with no further request — the
`except RateLimitError` handler retries at the same size after a 100 ms
sleep, issuing four requests in total. -/
theorem claim3_counterexample :
    runAttempt mkDownloadSample all403T 1000000 =
      ([.request 1000000 0, .errSleep 1, .request 1000000 1, .errSleep 2,
        .request 1000000 2, .errSleep 3, .request 1000000 3], .failed) ∧
    (requestSizes (runAttempt mkDownloadSample all403T 1000000).1).length ≠ 1 := by
  refine ⟨by with_unfolding_all rfl, ?_⟩
  have h : requestSizes (runAttempt mkDownloadSample all403T 1000000).1 =
      [1000000, 1000000, 1000000, 1000000] := by with_unfolding_all rfl
  rw [h]
  decide

/-- C3 amended: on 403 or any non-2xx status other than 429, the attempt
fails immediately only when `retry_count >= 3` or the size is at the
100,000 floor; otherwise the handler sleeps 100 ms, increments
`retry_count` and reissues the request at the same size.  With such a
status on every response, the attempt produces no sample, after exactly
one request at the floor and exactly four equal-size requests above it. -/
theorem claim3_amended (t : ℕ → Resp) (size : ℕ)
    (h : ∀ i, ∃ st ra, t i = .httpErr st ra ∧ st ≠ 429) :
    (runAttempt mkDownloadSample t size).2 = .failed ∧
    requestSizes (runAttempt mkDownloadSample t size).1 =
      List.replicate (if size ≤ MIN_BYTES_PER_REQ then 1 else 4) size := by
  obtain ⟨hout, hsz⟩ :=
    attemptGo_nonRL mkDownloadSample t h size (MAX_RETRIES + 1) 0 0 (by omega)
  refine ⟨hout, ?_⟩
  rw [show runAttempt mkDownloadSample t size =
    attemptGo mkDownloadSample t 0 size 0 (MAX_RETRIES + 1) from rfl, hsz]
  congr 1

/-- Witness for C3 at the all-403 transport and size 1,000,000. -/
theorem claim3_witness :
    (runAttempt mkDownloadSample all403T 1000000).2 = .failed ∧
    requestSizes (runAttempt mkDownloadSample all403T 1000000).1 =
      List.replicate 4 1000000 := by
  have h := claim3_amended all403T 1000000 (fun i => ⟨403, none, rfl, by decide⟩)
  exact ⟨h.1, by rw [h.2]; decide⟩

/-- C5 counterexample: the invariant "retryCount never exceeds 3 at any
point of the attempt" fails — under constant 429s from 1,000,000 the
fourth halving step brings `retry_count` to 4 (the `shrinkSleep 100000
4` trace event), which is what terminates the attempt. -/
theorem claim5_counterexample :
    ¬(∀ e ∈ (runAttempt mkDownloadSample all429T 1000000).1, eventRc e ≤ MAX_RETRIES) := by
  intro h
  have htrace : (runAttempt mkDownloadSample all429T 1000000).1 =
      [.request 1000000 0, .shrinkSleep 500000 1, .request 500000 1, .shrinkSleep 250000 2,
       .request 250000 2, .shrinkSleep 125000 3, .request 125000 3, .shrinkSleep 100000 4] := by
    with_unfolding_all rfl
  rw [htrace] at h
  have := h (.shrinkSleep 100000 4) (by simp)
  exact absurd this (by decide)

/-- C5 amended: within one attempt started at or above the 100,000-byte
floor, the requested sizes are non-increasing and stay within
`[floor, initial]`; `retry_count` is at most 3 whenever a request is
issued, but the internal counter may reach 4 (never more) through the
final halving step, which immediately ends the attempt. -/
theorem claim5_amended (t : ℕ → Resp) (size : ℕ) (h : MIN_BYTES_PER_REQ ≤ size) :
    (∀ s, s ∈ requestSizes (runAttempt mkDownloadSample t size).1 →
      MIN_BYTES_PER_REQ ≤ s ∧ s ≤ size) ∧
    List.Chain' (fun a b => b ≤ a) (requestSizes (runAttempt mkDownloadSample t size).1) ∧
    (∀ e ∈ (runAttempt mkDownloadSample t size).1, eventRc e ≤ MAX_RETRIES + 1) ∧
    (∀ s r2, Event.request s r2 ∈ (runAttempt mkDownloadSample t size).1 →
      r2 ≤ MAX_RETRIES) := by
  obtain ⟨hsz, hch, hrc, hreq⟩ :=
    attemptGo_invariant mkDownloadSample t (MAX_RETRIES + 1) 0 size 0 h
  exact ⟨hsz, hch, fun e he => by have := hrc e he; omega,
    fun s r2 hm => by have := hreq s r2 hm; omega⟩

/-- Witness for C5 at the all-429 transport and size 1,000,000. -/
theorem claim5_witness :
    List.Chain' (fun a b => b ≤ a)
      (requestSizes (runAttempt mkDownloadSample all429T 1000000).1) :=
  (claim5_amended all429T 1000000 (by decide)).2.1

/-- C6 counterexample: at a fully delivered 100,000-byte download
(transfer = requested = 100,000, TTFB 30 ms, total 530 ms, no timing
header), the code computes `bits = 8 * transfer_size = 800,000` and
`bps = 20,000,000/13`, while the claimed formula `bits = 8 *
max(bytesActuallyTransferred, requestedBytes * 1.005) = 804,000` would
give `bps = 804,000 / (520/1000)`; the two disagree. -/
theorem claim6_counterexample :
    (mkDownloadSample none 30 530 100000 100000).duration = 520 ∧
    (mkDownloadSample none 30 530 100000 100000).bps = 20000000 / 13 ∧
    specDownloadBits 100000 100000 = 804000 ∧
    (mkDownloadSample none 30 530 100000 100000).bps ≠
      specDownloadBits 100000 100000 /
        ((mkDownloadSample none 30 530 100000 100000).duration / 1000) := by
  have h1 : (mkDownloadSample none 30 530 100000 100000).duration = 520 := by
    with_unfolding_all rfl
  have h2 : (mkDownloadSample none 30 530 100000 100000).bps = 20000000 / 13 := by
    with_unfolding_all rfl
  have h3 : specDownloadBits 100000 100000 = 804000 := by with_unfolding_all rfl
  refine ⟨h1, h2, h3, ?_⟩
  rw [h1, h2, h3]
  norm_num

/-- C6 amended: a download success sample satisfies `pingMs = max(0.01,
ttfbMs - serverTimeMs)`, `durationMs = pingMs + max(1, contentFullyReceivedMs
- headerReceivedMs)` (positive), `bits = 8 * bytesActuallyTransferred`
when any bytes arrived and `8 * int(requestedBytes * 1.005)` otherwise
(`codeDownloadBits`, not the spec's `max` formula), `bps = bits /
(durationMs/1000)`, and records the possibly-adapted requested size. -/
theorem claim6_amended (st : Option ℚ) (ttfb total : ℚ) (transfer size : ℕ) :
    (mkDownloadSample st ttfb total transfer size).ping =
      max (1/100) (ttfb - serverTimeOr st) ∧
    (mkDownloadSample st ttfb total transfer size).duration =
      max (1/100) (ttfb - serverTimeOr st) + max 1 (total - ttfb) ∧
    0 < (mkDownloadSample st ttfb total transfer size).duration ∧
    (mkDownloadSample st ttfb total transfer size).bps =
      codeDownloadBits transfer size /
        ((mkDownloadSample st ttfb total transfer size).duration / 1000) ∧
    (mkDownloadSample st ttfb total transfer size).bytes = size := by
  have hmax : max (1 : ℚ) (max 1 (total - ttfb)) = max 1 (total - ttfb) := by
    rw [← max_assoc, max_self]
  have hdur := mkDownloadSample_duration_pos st ttfb total transfer size
  have hdur2 : 0 < max (1/100) (ttfb - serverTimeOr st) + max 1 (max 1 (total - ttfb)) :=
    hdur
  refine ⟨rfl, ?_, hdur, ?_, rfl⟩
  · show max (1/100) (ttfb - serverTimeOr st) + max 1 (max 1 (total - ttfb)) = _
    rw [hmax]
  · show (if 0 < max (1/100) (ttfb - serverTimeOr st) + max 1 (max 1 (total - ttfb))
        then codeDownloadBits transfer size /
          ((max (1/100) (ttfb - serverTimeOr st) + max 1 (max 1 (total - ttfb))) / 1000)
        else 0) = _
    rw [if_pos hdur2]
    rfl

/-- C2: for a download/upload phase with `bypass_min_duration = false`,
the direction's finished flag becomes set exactly when the phase had at
least one success and the minimum duration over the phase's successful
results exceeds the 1000 ms finish threshold; once set, the flag stays
set and every later phase of that direction is skipped entirely (the
state does not change at all), while latency phases always execute and
phases of the other direction — download as well as upload — execute
whenever their own flag is unset. -/
theorem claim2_sequencer_early_stop (dlT ulT : ℕ → ℕ → ℕ → Resp) (latT : ℕ → ℕ → Resp) :
    (∀ i ph, measurementsIdx[i]? = some (i, ph) → ph.kind = .download →
      ph.bypass = false → (statesUpTo dlT ulT latT i).downloadFinished = false →
      ((statesUpTo dlT ulT latT (i + 1)).downloadFinished = true ↔
        ((measureBandwidth mkDownloadSample (dlT i) ph.bytes ph.count).1 ≠ [] ∧
          BANDWIDTH_FINISH_REQUEST_DURATION <
            (measureBandwidth mkDownloadSample (dlT i) ph.bytes ph.count).2))) ∧
    (∀ i ph, measurementsIdx[i]? = some (i, ph) → ph.kind = .upload →
      ph.bypass = false → (statesUpTo dlT ulT latT i).uploadFinished = false →
      ((statesUpTo dlT ulT latT (i + 1)).uploadFinished = true ↔
        ((measureBandwidth mkUploadSample (ulT i) ph.bytes ph.count).1 ≠ [] ∧
          BANDWIDTH_FINISH_REQUEST_DURATION <
            (measureBandwidth mkUploadSample (ulT i) ph.bytes ph.count).2))) ∧
    (∀ i ph, measurementsIdx[i]? = some (i, ph) → ph.kind = .download →
      (statesUpTo dlT ulT latT i).downloadFinished = true →
      statesUpTo dlT ulT latT (i + 1) = statesUpTo dlT ulT latT i) ∧
    (∀ i ph, measurementsIdx[i]? = some (i, ph) → ph.kind = .upload →
      (statesUpTo dlT ulT latT i).uploadFinished = true →
      statesUpTo dlT ulT latT (i + 1) = statesUpTo dlT ulT latT i) ∧
    (∀ i p, measurementsIdx[i]? = some p →
      (statesUpTo dlT ulT latT i).downloadFinished = true →
      (statesUpTo dlT ulT latT (i + 1)).downloadFinished = true) ∧
    (∀ i p, measurementsIdx[i]? = some p →
      (statesUpTo dlT ulT latT i).uploadFinished = true →
      (statesUpTo dlT ulT latT (i + 1)).uploadFinished = true) ∧
    (∀ i ph, measurementsIdx[i]? = some (i, ph) → ph.kind = .latency →
      (statesUpTo dlT ulT latT (i + 1)).executed =
        (statesUpTo dlT ulT latT i).executed ++ [i]) ∧
    (∀ i ph, measurementsIdx[i]? = some (i, ph) → ph.kind = .upload →
      (statesUpTo dlT ulT latT i).uploadFinished = false →
      (statesUpTo dlT ulT latT (i + 1)).executed =
        (statesUpTo dlT ulT latT i).executed ++ [i]) ∧
    (∀ i ph, measurementsIdx[i]? = some (i, ph) → ph.kind = .download →
      (statesUpTo dlT ulT latT i).downloadFinished = false →
      (statesUpTo dlT ulT latT (i + 1)).executed =
        (statesUpTo dlT ulT latT i).executed ++ [i]) := by
  refine ⟨?_, ?_, ?_, ?_, ?_, ?_, ?_, ?_, ?_⟩
  · intro i ph hget hk hb hf
    rw [statesUpTo_succ dlT ulT latT i _ hget]
    exact phaseStep_download_finished_iff dlT ulT latT _ i ph hk hb hf
  · intro i ph hget hk hb hf
    rw [statesUpTo_succ dlT ulT latT i _ hget]
    exact phaseStep_upload_finished_iff dlT ulT latT _ i ph hk hb hf
  · intro i ph hget hk hf
    rw [statesUpTo_succ dlT ulT latT i _ hget]
    exact phaseStep_download_skip dlT ulT latT _ i ph hk hf
  · intro i ph hget hk hf
    rw [statesUpTo_succ dlT ulT latT i _ hget]
    exact phaseStep_upload_skip dlT ulT latT _ i ph hk hf
  · intro i p hget hf
    rw [statesUpTo_succ dlT ulT latT i _ hget]
    exact phaseStep_downloadFinished_mono dlT ulT latT _ p hf
  · intro i p hget hf
    rw [statesUpTo_succ dlT ulT latT i _ hget]
    exact phaseStep_uploadFinished_mono dlT ulT latT _ p hf
  · intro i ph hget hk
    rw [statesUpTo_succ dlT ulT latT i _ hget]
    exact phaseStep_latency_executed dlT ulT latT _ i ph hk
  · intro i ph hget hk hf
    rw [statesUpTo_succ dlT ulT latT i _ hget]
    exact phaseStep_upload_executed dlT ulT latT _ i ph hk hf
  · intro i ph hget hk hf
    rw [statesUpTo_succ dlT ulT latT i _ hget]
    exact phaseStep_download_executed dlT ulT latT _ i ph hk hf

/-- Witness for C2: the first non-bypass download phase (table row 3)
under a transport whose downloads take 1520 ms sets the download
finished flag. -/
theorem claim2_witness : (statesUpTo hiDlT okUlT okLatT 4).downloadFinished = true := by
  have h := (claim2_sequencer_early_stop hiDlT okUlT okLatT).1 3
    ⟨.download, 100000, 9, false⟩ (by with_unfolding_all rfl) rfl rfl
    (by with_unfolding_all rfl)
  refine h.mpr ⟨?_, ?_⟩
  · have he : (measureBandwidth mkDownloadSample (hiDlT 3) 100000 9).1 =
        List.replicate 9 ⟨100000, 100/19, 1520, 20⟩ := by with_unfolding_all rfl
    rw [he]
    simp
  · have hm : (measureBandwidth mkDownloadSample (hiDlT 3) 100000 9).2 = 1520 := by
      with_unfolding_all rfl
    rw [hm]
    norm_num [BANDWIDTH_FINISH_REQUEST_DURATION]

set_option maxRecDepth 4000 in
/-- C4: evidence of the code bug.  The `except RateLimitError` handler in
`run_standard_test` that should abort the run when the single-sample
100,000-byte calibration download fails is unreachable, because
`measure_download_bandwidth` catches `RateLimitError` internally and
returns an empty result list instead of raising.  With the calibration
phase blocked by 403 and everything else healthy, the calibration phase
contributes no sample, yet the run completes normally and returns a full
report instead of aborting with a critical error. -/
theorem claim4_run_continues_after_calibration_failure :
    (statesUpTo cal403DlT okUlT okLatT 2).downloadResults = [] ∧
    runStandardTest cal403DlT okUlT okLatT 90 =
      .ok ⟨25/13, 1340000000, List.replicate 20 520⟩ :=
  ⟨by with_unfolding_all rfl, by with_unfolding_all rfl⟩

/-- C7 counterexample: the download direction ends with zero qualifying
samples (every download request is blocked by 403), yet because every
latency probe also failed, the run raises the earlier latency failure —
not a MeasurementFailure naming the download direction — so "whenever a
direction ends with zero qualifying samples the run raises a
MeasurementFailure for that direction" is false as stated.  Moreover
the failure's attempted-sizes context is the empty list. -/
theorem claim7_counterexample :
    qualifyingBps (finalState dl403T okUlT failLatT).downloadResults = [] ∧
    runStandardTest dl403T okUlT failLatT 90 = .error .latencyFailed ∧
    runStandardTest dl403T okUlT failLatT 90 ≠
      .error (.downloadFailed (finalState dl403T okUlT failLatT).failedDownloadSizes) ∧
    (finalState dl403T okUlT failLatT).failedDownloadSizes = [] := by
  have h2 : runStandardTest dl403T okUlT failLatT 90 = .error .latencyFailed := by
    with_unfolding_all rfl
  have h4 : (finalState dl403T okUlT failLatT).failedDownloadSizes = [] := by
    with_unfolding_all rfl
  refine ⟨by with_unfolding_all rfl, h2, ?_, h4⟩
  rw [h2, h4]
  intro hc
  injection hc with hc2
  cases hc2

/-- C7 amended: when a direction ends with zero qualifying samples
(duration at least 10 ms and nonzero bps) and at least one latency
sample was collected, the run raises that direction's failure — the
download failure first, the upload failure when downloads qualified —
while with no latency samples the latency failure is raised first
instead; a run that returns a report had qualifying samples in both
directions and never reports a zero bandwidth; and the attempted-sizes
context carried by a direction failure is always the empty list (the
source's size-recording handlers are unreachable).  (The percentile
bounds keep the other direction's `percentile` call in range.) -/
theorem claim7_measurement_failure (dlT ulT : ℕ → ℕ → ℕ → Resp) (latT : ℕ → ℕ → Resp)
    (pv : ℚ) (h0 : 0 ≤ pv) (h100 : pv ≤ 100) :
    (qualifyingBps (finalState dlT ulT latT).downloadResults = [] →
      selectedLatency (finalState dlT ulT latT).allLatency ≠ [] →
      runStandardTest dlT ulT latT pv =
        .error (.downloadFailed (finalState dlT ulT latT).failedDownloadSizes)) ∧
    (qualifyingBps (finalState dlT ulT latT).uploadResults = [] →
      qualifyingBps (finalState dlT ulT latT).downloadResults ≠ [] →
      selectedLatency (finalState dlT ulT latT).allLatency ≠ [] →
      runStandardTest dlT ulT latT pv =
        .error (.uploadFailed (finalState dlT ulT latT).failedUploadSizes)) ∧
    (∀ r, runStandardTest dlT ulT latT pv = .ok r →
      qualifyingBps (finalState dlT ulT latT).downloadResults ≠ [] ∧
      qualifyingBps (finalState dlT ulT latT).uploadResults ≠ [] ∧
      r.downloadSpeed ≠ 0 ∧ r.uploadSpeed ≠ 0) ∧
    ((finalState dlT ulT latT).failedDownloadSizes = [] ∧
      (finalState dlT ulT latT).failedUploadSizes = []) ∧
    (selectedLatency (finalState dlT ulT latT).allLatency = [] →
      runStandardTest dlT ulT latT pv = .error .latencyFailed) := by
  obtain ⟨hbp0, hbp100⟩ := bandwidthPercentile_bounds pv h0 h100
  refine ⟨?_, ?_, ?_, finalState_failedSizes dlT ulT latT, ?_⟩
  · intro hdl hlat
    simp only [runStandardTest, assemble]
    rw [if_neg hlat, computeDirBps_of_qual_nil _ _ hdl]
    obtain ⟨o, ho⟩ := computeDirBps_ok (finalState dlT ulT latT).uploadResults _ hbp0 hbp100
    rw [ho]
    rfl
  · intro hul hdl hlat
    have hnn := (finalState_bps_nonneg dlT ulT latT).1
    obtain ⟨b, hdlEq, hbpos⟩ :=
      computeDirBps_pos (finalState dlT ulT latT).downloadResults _ hbp0 hbp100 hnn hdl
    simp only [runStandardTest, assemble]
    rw [if_neg hlat, hdlEq, computeDirBps_of_qual_nil _ _ hul]
    have hsp : speedOf (some b) = some (b / 8) := by
      rw [show speedOf (some b) = if b ≠ 0 then some (b / 8) else none from rfl,
        if_pos (show b ≠ 0 from ne_of_gt hbpos)]
    show (match speedOf (some b) with
      | none => Except.error (RunError.downloadFailed
          (finalState dlT ulT latT).failedDownloadSizes)
      | some ds =>
        match speedOf none with
        | none => Except.error (RunError.uploadFailed
            (finalState dlT ulT latT).failedUploadSizes)
        | some us => Except.ok ⟨ds, us, selectedLatency (finalState dlT ulT latT).allLatency⟩) =
      Except.error (RunError.uploadFailed (finalState dlT ulT latT).failedUploadSizes)
    rw [hsp]
    rfl
  · intro r hr
    simp only [runStandardTest, assemble] at hr
    by_cases hlat : selectedLatency (finalState dlT ulT latT).allLatency = []
    · rw [if_pos hlat] at hr
      cases hr
    rw [if_neg hlat] at hr
    split at hr
    · cases hr
    next dlBps hdlEq =>
      split at hr
      · cases hr
      next ulBps hulEq =>
        split at hr
        · cases hr
        next ds hds =>
          split at hr
          · cases hr
          next us hus =>
            cases hr
            have hdlq : qualifyingBps (finalState dlT ulT latT).downloadResults ≠ [] := by
              intro hq
              rw [computeDirBps_of_qual_nil _ _ hq] at hdlEq
              cases hdlEq
              cases hds
            have hulq : qualifyingBps (finalState dlT ulT latT).uploadResults ≠ [] := by
              intro hq
              rw [computeDirBps_of_qual_nil _ _ hq] at hulEq
              cases hulEq
              cases hus
            obtain ⟨b1, -, hb1, hds1⟩ := speedOf_some_inv hds
            obtain ⟨b2, -, hb2, hus1⟩ := speedOf_some_inv hus
            refine ⟨hdlq, hulq, ?_, ?_⟩
            · show ds ≠ 0
              rw [hds1]
              exact div_ne_zero hb1 (by norm_num)
            · show us ≠ 0
              rw [hus1]
              exact div_ne_zero hb2 (by norm_num)
  · intro hlat
    simp only [runStandardTest, assemble]
    rw [if_pos hlat]

/-- Witness for C7: with every download request blocked by 403 (uploads
and latency healthy), the run fails naming the download direction. -/
theorem claim7_witness :
    runStandardTest dl403T okUlT okLatT 90 = .error (.downloadFailed []) := by
  have hlat : selectedLatency (finalState dl403T okUlT okLatT).allLatency ≠ [] := by
    have hl : selectedLatency (finalState dl403T okUlT okLatT).allLatency =
        List.replicate 20 520 := by with_unfolding_all rfl
    rw [hl]
    simp
  have h := (claim7_measurement_failure dl403T okUlT okLatT 90 (by norm_num)
    (by norm_num)).1 (by with_unfolding_all rfl) hlat
  have hsz : (finalState dl403T okUlT okLatT).failedDownloadSizes = [] := by
    with_unfolding_all rfl
  rw [hsz] at h
  exact h

set_option maxRecDepth 4000 in
/-- C9 counterexample: in a fully successful run at percentile 90, the
90th-percentile of the qualifying download bits-per-second values is
200/13, but the report's `download_speed` field is 25/13 — the
percentile divided by 8 (bytes per second, as `run_standard_test`'s own
docstring says), not the bits-per-second value the claim asserts. -/
theorem claim9_counterexample :
    runStandardTest okDlT okUlT okLatT 90 =
      .ok ⟨25/13, 1340000000, List.replicate 20 520⟩ ∧
    percentile (qualifyingBps (finalState okDlT okUlT okLatT).downloadResults)
      (if (1 : ℚ) < 90 then 90 / 100 else 90) = some (200/13) ∧
    (25/13 : ℚ) = (200/13) / 8 ∧ (25/13 : ℚ) ≠ 200/13 := by
  refine ⟨by with_unfolding_all rfl, by with_unfolding_all rfl, by norm_num, by norm_num⟩

/-- C9 amended: the report's bandwidth fields are expressed in BYTES per
second: whenever a run returns a report, eight times the reported
download (resp. upload) value is exactly the configured percentile of
the direction's qualifying bits-per-second samples. -/
theorem claim9_amended (dlT ulT : ℕ → ℕ → ℕ → Resp) (latT : ℕ → ℕ → Resp) (pv : ℚ)
    (r : RunReport) (h : runStandardTest dlT ulT latT pv = .ok r) :
    percentile (qualifyingBps (finalState dlT ulT latT).downloadResults)
      (if 1 < pv then pv / 100 else pv) = some (r.downloadSpeed * 8) ∧
    percentile (qualifyingBps (finalState dlT ulT latT).uploadResults)
      (if 1 < pv then pv / 100 else pv) = some (r.uploadSpeed * 8) := by
  simp only [runStandardTest, assemble] at h
  by_cases hlat : selectedLatency (finalState dlT ulT latT).allLatency = []
  · rw [if_pos hlat] at h
    cases h
  rw [if_neg hlat] at h
  split at h
  · cases h
  next dlBps hdlEq =>
    split at h
    · cases h
    next ulBps hulEq =>
      split at h
      · cases h
      next ds hds =>
        split at h
        · cases h
        next us hus =>
          cases h
          obtain ⟨b1, hb1o, hb1, hds1⟩ := speedOf_some_inv hds
          obtain ⟨b2, hb2o, hb2, hus1⟩ := speedOf_some_inv hus
          subst hb1o
          subst hb2o
          have hp1 := computeDirBps_some_inv hdlEq
          have hp2 := computeDirBps_some_inv hulEq
          constructor
          · rw [hp1]
            show some b1 = some (ds * 8)
            rw [hds1, div_mul_cancel₀ b1 (by norm_num : (8 : ℚ) ≠ 0)]
          · rw [hp2]
            show some b2 = some (us * 8)
            rw [hus1, div_mul_cancel₀ b2 (by norm_num : (8 : ℚ) ≠ 0)]

set_option maxRecDepth 4000 in
/-- Witness for C9 at the all-successful transport and percentile 90. -/
theorem claim9_witness :
    percentile (qualifyingBps (finalState okDlT okUlT okLatT).downloadResults)
      (if (1 : ℚ) < 90 then 90 / 100 else 90) = some ((25/13 : ℚ) * 8) :=
  (claim9_amended okDlT okUlT okLatT 90 ⟨25/13, 1340000000, List.replicate 20 520⟩
    (by with_unfolding_all rfl)).1

end CFSpeedtest
